import Mathlib

/-!
# Lucky Draw: weighted-draw engine and draw session

A shallow embedding of the draw logic, the participant store, the winner ledger,
the participant import and the state loading of `src/js/script.js`. The older
variant `src/script.js` has the same `buildWeightedPool`, `getTotalTickets`,
`onSpinComplete`, `confirmWinner`, `redrawPrize`, `addParticipant`,
`removeParticipant` and `clearWinners` as far as the data modelled here goes; its
`startSpin`, `adjustTickets` and `loadState` differ and are embedded under the
names `startSpinLegacy`, `adjustTicketsLegacy` and `loadStateLegacy`.

The JavaScript globals `state`, `isSpinning` and `pendingWinner` become the
fields of one `State` record that every operation receives and returns.
Presentation effects (DOM, canvas, audio, toasts, `localStorage` writes) do not
feed back into these fields and are left out.
-/

namespace LuckyDraw

/-! ## Data model -/

/-- One entry of `state.participants`: `{ id, name, tickets }`. The ticket count
is a JavaScript number holding an integer; nothing in the record type itself
keeps it non-negative, so it is an `Int`. -/
structure Participant where
  id : Int
  name : String
  tickets : Int
  deriving DecidableEq, Repr

/-- One entry of `state.winners`: `{ prize, name }`. -/
structure WinnerRecord where
  prize : String
  name : String
  deriving DecidableEq, Repr

/-- The globals of the script: `state.participants`, `state.winners`,
`state.currentPrize`, `isSpinning` and `pendingWinner`. `pendingWinner` is
`none` for `null` and `undefined`, `some w` for a string. -/
structure State where
  participants : List Participant
  winners : List WinnerRecord
  currentPrize : String
  isSpinning : Bool
  pendingWinner : Option String
  deriving DecidableEq, Repr

/-! ## Weighted pool -/

/-- The function `buildWeightedPool`: `forEach` participant, the loop
`for (let i = 0; i < p.tickets; i++) pool.push(p.name)` pushes the name
`max(0, tickets)` times. -/
def buildWeightedPool (participants : List Participant) : List String :=
  participants.foldl (fun pool p => pool ++ List.replicate p.tickets.toNat p.name) []

/-- The function `getTotalTickets`:
`participants.reduce((sum, p) => sum + p.tickets, 0)`. -/
def getTotalTickets (participants : List Participant) : Int :=
  participants.foldl (fun sum p => sum + p.tickets) 0

/-! ## Draw session -/

/-- The function `startSpin` of `src/js/script.js`. `winnerIndex` stands for
`Math.floor(Math.random() * pool.length)`, which the environment supplies.
Returns the new state together with the callback that was scheduled:
`none` when the call was rejected (no animation started), `some winnerName`
when `animateWheel(targetAngle, winnerName)` was started, where `winnerName`
is `pool[winnerIndex]` (`none` when that lookup is `undefined`). -/
def startSpin (s : State) (winnerIndex : Nat) : State × Option (Option String) :=
  if s.isSpinning then (s, none)
  else
    let totalTickets := getTotalTickets s.participants
    if totalTickets = 0 then (s, none)
    else
      let s1 := { s with isSpinning := true }
      let pool := buildWeightedPool s1.participants
      let winnerName := pool[winnerIndex]?
      (s1, some winnerName)

/-- The function `startSpin` of the older variant `src/script.js`, which has one
more guard between the two above: `prizeBlank` stands for
`!prizeInput.value.trim()`, read from the page. -/
def startSpinLegacy (prizeBlank : Bool) (s : State) (winnerIndex : Nat) :
    State × Option (Option String) :=
  if s.isSpinning then (s, none)
  else if prizeBlank then (s, none)
  else
    let totalTickets := getTotalTickets s.participants
    if totalTickets = 0 then (s, none)
    else
      let s1 := { s with isSpinning := true }
      let pool := buildWeightedPool s1.participants
      let winnerName := pool[winnerIndex]?
      (s1, some winnerName)

/-- The function `onSpinComplete`, run by the animation callback with the
winner name that `startSpin` computed. -/
def onSpinComplete (s : State) (winnerName : Option String) : State :=
  { s with isSpinning := false, pendingWinner := winnerName }

/-- JavaScript truthiness of `pendingWinner`: `null`, `undefined` and the empty
string are falsy. -/
def isTruthy : Option String → Bool
  | none => false
  | some w => w != ""

/-- In-place update of the first element that satisfies `pred`: the object that
`Array.prototype.find` returns is mutated where it sits in the array. -/
def modifyFirst (pred : Participant → Bool) (f : Participant → Participant) :
    List Participant → List Participant
  | [] => []
  | p :: ps => if pred p then f p :: ps else p :: modifyFirst pred f ps

/-- The function `confirmWinner`: return at once when `pendingWinner` is falsy;
otherwise `find` the first participant with that name, take one ticket from it
when it has more than 0, push `{ prize: state.currentPrize, name: pendingWinner }`
and clear `pendingWinner`. -/
def confirmWinner (s : State) : State :=
  match s.pendingWinner with
  | none => s
  | some w =>
    if !isTruthy (some w) then s
    else
      let winner := s.participants.find? (fun p => p.name == w)
      let participants :=
        match winner with
        | some p =>
          if p.tickets > 0 then
            modifyFirst (fun q => q.name == w) (fun q => { q with tickets := q.tickets - 1 })
              s.participants
          else s.participants
        | none => s.participants
      { s with
        participants := participants
        winners := s.winners ++ [{ prize := s.currentPrize, name := w }]
        pendingWinner := none }

/-- The function `redrawPrize`: apart from closing the modal it only clears
`pendingWinner`. -/
def redrawPrize (s : State) : State :=
  { s with pendingWinner := none }

/-! ## Participant store -/

/-- The function `adjustTickets` of `src/js/script.js`: rejected while
`isSpinning`, when no participant has the id, and when `tickets + delta` would be
negative; otherwise the participant that `find` returns gets the new count. -/
def adjustTickets (s : State) (participantId : Int) (delta : Int) : State :=
  if s.isSpinning then s
  else
    match s.participants.find? (fun p => p.id == participantId) with
    | none => s
    | some participant =>
      let newTickets := participant.tickets + delta
      if newTickets < 0 then s
      else
        { s with
          participants :=
            modifyFirst (fun p => p.id == participantId)
              (fun p => { p with tickets := newTickets }) s.participants }

/-- The function `adjustTickets` of the older variant `src/script.js`: the same
without the `isSpinning` guard. -/
def adjustTicketsLegacy (s : State) (participantId : Int) (delta : Int) : State :=
  match s.participants.find? (fun p => p.id == participantId) with
  | none => s
  | some participant =>
    let newTickets := participant.tickets + delta
    if newTickets < 0 then s
    else
      { s with
        participants :=
          modifyFirst (fun p => p.id == participantId)
            (fun p => { p with tickets := newTickets }) s.participants }

/-- The expression `Math.max(...state.participants.map(p => p.id), 0)` of
`addParticipant`. -/
def maxId (participants : List Participant) : Int :=
  (participants.map (fun p => p.id)).foldr max 0

/-- The function `addParticipant(name, tickets = 1)`: `tickets` is `none` when the
argument is omitted, and the default 1 is taken then. The argument is stored as
it is given. -/
def addParticipant (s : State) (name : String) (tickets : Option Int) : State :=
  { s with
    participants :=
      s.participants ++
        [{ id := maxId s.participants + 1, name := name, tickets := tickets.getD 1 }] }

/-- The function `removeParticipant`: `findIndex` by id, return when it is `-1`,
otherwise `splice(index, 1)`. -/
def removeParticipant (s : State) (id : Int) : State :=
  match s.participants.findIdx? (fun p => p.id == id) with
  | none => s
  | some index => { s with participants := s.participants.eraseIdx index }

/-! ## Winner ledger -/

/-- The function `clearWinners`; `confirmed` is the answer to the `confirm`
dialog. -/
def clearWinners (s : State) (confirmed : Bool) : State :=
  if s.winners.length = 0 then s
  else if confirmed then { s with winners := [] }
  else s

/-- The function `removeWinner` of `src/js/script.js`; `confirmed` is the answer
to the `confirm` dialog. -/
def removeWinner (s : State) (index : Int) (confirmed : Bool) : State :=
  if index < 0 ∨ index ≥ s.winners.length then s
  else if confirmed then { s with winners := s.winners.eraseIdx index.toNat }
  else s

/-- The rows that `renderWinners` of `src/js/script.js` writes, top row first:
the record shown and the `originalIndex` put on its delete button, computed as
`state.winners.length - 1 - index` over `[...state.winners].reverse()`. -/
def renderWinners (s : State) : List (Int × WinnerRecord) :=
  s.winners.reverse.enum.map
    (fun row => ((s.winners.length : Int) - 1 - (row.1 : Int), row.2))

/-! ## Participant import -/

/-- The loop body of `parseCSV` from line position `i` on: a line whose trimmed
text is non-empty gives `{ id: i, name, tickets: 1 }`. `trim` stands for the
built-in `String.prototype.trim`. -/
def parseLinesFrom (trim : String → String) : Nat → List String → List Participant
  | _, [] => []
  | i, line :: rest =>
    let name := trim line
    if name ≠ "" then
      { id := (i : Int), name := name, tickets := 1 } :: parseLinesFrom trim (i + 1) rest
    else parseLinesFrom trim (i + 1) rest

/-- The loop `for (let i = 1; i < lines.length; i++)` of `parseCSV` and
`resetParticipants`: it starts at position 1, behind the header line. -/
def parseLines (trim : String → String) (lines : List String) : List Participant :=
  parseLinesFrom trim 1 (lines.drop 1)

/-- The function `parseCSV`: the parsed list replaces the participants, the
winners are emptied and the prize is reset. -/
def parseCSV (trim : String → String) (s : State) (text : String) : State :=
  { s with
    participants := parseLines trim (text.splitOn "\n")
    winners := []
    currentPrize := "特獎（四）" }

/-- The function `resetParticipants`: after a confirmed dialog and a successful
fetch (`fetched` is the text, `none` when the fetch failed) the parsed list
replaces the participants; the winners are kept. -/
def resetParticipants (trim : String → String) (s : State) (confirmed : Bool)
    (fetched : Option String) : State :=
  if confirmed then
    match fetched with
    | some text => { s with participants := parseLines trim (text.splitOn "\n") }
    | none => s
  else s

/-! ## Persistence -/

/-- What `localStorage.getItem(STORAGE_KEY)` and `JSON.parse` deliver: nothing
saved, a payload that makes the `try` block throw, or an object whose three
properties are each present or missing. -/
inductive Stored where
  | absent
  | malformed
  | payload (participants : Option (List Participant))
      (winners : Option (List WinnerRecord)) (currentPrize : Option String)
  deriving DecidableEq, Repr

/-- The constant `DEFAULT_PARTICIPANTS` of `src/script.js`. -/
def DEFAULT_PARTICIPANTS : List Participant :=
  [⟨1, "Amy", 3⟩, ⟨2, "John", 2⟩, ⟨3, "Emily", 1⟩, ⟨4, "David", 2⟩, ⟨5, "Sarah", 1⟩,
    ⟨6, "Michael", 3⟩, ⟨7, "Lisa", 2⟩, ⟨8, "Kevin", 1⟩, ⟨9, "Jessica", 2⟩, ⟨10, "Chris", 1⟩]

/-- The function `loadState` of `src/script.js`: a payload is taken over with
defaults for missing properties; with nothing saved, or after an error, the
seed list, an empty ledger and the default prize are set. -/
def loadStateLegacy (s : State) (saved : Stored) : State :=
  match saved with
  | Stored.payload participants winners currentPrize =>
    { s with
      participants := participants.getD DEFAULT_PARTICIPANTS
      winners := winners.getD []
      currentPrize := if isTruthy currentPrize then currentPrize.getD "特獎" else "特獎" }
  | Stored.absent =>
    { s with participants := DEFAULT_PARTICIPANTS, winners := [], currentPrize := "特獎" }
  | Stored.malformed =>
    { s with participants := DEFAULT_PARTICIPANTS, winners := [], currentPrize := "特獎" }

/-- The function `loadState` of `src/js/script.js`: a payload is taken over and
`true` returned; with nothing saved, or after an error, the state is left as it
is and `false` returned. -/
def loadState (s : State) (saved : Stored) : State × Bool :=
  match saved with
  | Stored.payload participants winners currentPrize =>
    ({ s with
       participants := participants.getD []
       winners := winners.getD []
       currentPrize :=
         if isTruthy currentPrize then currentPrize.getD "特獎（四）" else "特獎（四）" },
      true)
  | Stored.absent => (s, false)
  | Stored.malformed => (s, false)

/-- The globals of `src/js/script.js` as they are initialised when the script
loads. -/
def initialState : State :=
  { participants := [], winners := [], currentPrize := "特獎（四）",
    isSpinning := false, pendingWinner := none }

/-- The function `loadCSV`: `parseCSV` on the fetched text, nothing when the
fetch failed. -/
def loadCSV (trim : String → String) (s : State) (fetched : Option String) : State :=
  match fetched with
  | some text => parseCSV trim s text
  | none => s

/-- The state part of the `DOMContentLoaded` handler of `src/js/script.js`:
`loadState`, and `loadCSV` when it returned `false`. -/
def onDOMContentLoaded (trim : String → String) (saved : Stored)
    (fetched : Option String) : State :=
  let loaded := loadState initialState saved
  if !loaded.2 then loadCSV trim loaded.1 fetched else loaded.1

/-! ## Wheel angle -/

/-- Rounding toward zero, the quotient that the JavaScript remainder uses. -/
def truncateQuotient (q : ℚ) : Int :=
  if 0 ≤ q then ⌊q⌋ else ⌈q⌉

/-- The JavaScript operator `a % b` on numbers, in exact arithmetic: `a` minus `b`
times the quotient rounded toward zero, so the result has the sign of `a`. (Used
with `b = 360` only.) -/
def jsRem (a b : ℚ) : ℚ :=
  a - b * (truncateQuotient (a / b) : ℚ)

/-- The line `const sliceAngle = 360 / pool.length` of `startSpin`. -/
def sliceAngle (poolLength : Nat) : ℚ :=
  360 / (poolLength : ℚ)

/-- The line `const stopAngle = 360 - (winnerIndex * sliceAngle + sliceAngle / 2)`
of `startSpin`. -/
def stopAngle (poolLength winnerIndex : Nat) : ℚ :=
  360 - ((winnerIndex : ℚ) * sliceAngle poolLength + sliceAngle poolLength / 2)

/-- The line `const currentAngleMod = ((currentRotation % 360) + 360) % 360` of
`startSpin`. -/
def currentAngleMod (currentRotation : ℚ) : ℚ :=
  jsRem (jsRem currentRotation 360 + 360) 360

/-- The target angle that `startSpin` of `src/js/script.js` hands to `animateWheel`.
`extraSpins` stands for `Math.floor(Math.random() * 3)`. -/
def targetAngle (currentRotation : ℚ) (poolLength winnerIndex extraSpins : Nat) : ℚ :=
  let stop := stopAngle poolLength winnerIndex
  let minSpins : Nat := 5
  let totalSpins : Nat := minSpins + extraSpins
  let extraAngle := stop - currentAngleMod currentRotation
  let extraAngle := if extraAngle ≤ 0 then extraAngle + 360 else extraAngle
  currentRotation + (totalSpins : ℚ) * 360 + extraAngle

/-- The target angle that `startSpin` of the older variant `src/script.js` hands
to `animateWheel`: `spins * 360 + (360 - targetSlice * sliceAngle - sliceAngle / 2)`
with `spins = 5 + Math.floor(Math.random() * 3)`. -/
def targetAngleLegacy (poolLength winnerIndex extraSpins : Nat) : ℚ :=
  let sliceAngle : ℚ := 360 / (poolLength : ℚ)
  let targetSlice : ℚ := (winnerIndex : ℚ)
  let spins : Nat := 5 + extraSpins
  (spins : ℚ) * 360 + (360 - targetSlice * sliceAngle - sliceAngle / 2)

/-- The rotation that one frame of `animateWheel` sets:
`startAngle + (targetAngle - startAngle) * easeProgress` with
`easeProgress = 1 - Math.pow(1 - progress, 3)`. -/
def animateWheelAngle (startAngle target progress : ℚ) : ℚ :=
  let easeProgress := 1 - (1 - progress) ^ 3
  startAngle + (target - startAngle) * easeProgress

/-- The start of the slice that `drawWheel` draws for `index` and labels with
`pool[index]`: `index * sliceAngle`, in degrees (the source has
`sliceAngle = (2 * Math.PI) / pool.length` radians, the same part of a turn). -/
def sliceStart (poolLength index : Nat) : ℚ :=
  (index : ℚ) * (360 / (poolLength : ℚ))

/-- The end of that slice: `startAngle + sliceAngle`. -/
def sliceEnd (poolLength index : Nat) : ℚ :=
  sliceStart poolLength index + 360 / (poolLength : ℚ)

/-! ## Notions used to state the properties -/

/-- Every ticket count is at least 0 (the data model's invariant). -/
def TicketsNonneg (participants : List Participant) : Prop :=
  ∀ p ∈ participants, 0 ≤ p.tickets

instance (participants : List Participant) : Decidable (TicketsNonneg participants) :=
  inferInstanceAs (Decidable (∀ p ∈ participants, 0 ≤ p.tickets))

/-- No two participants carry the same name. -/
def NamesDistinct (participants : List Participant) : Prop :=
  (participants.map (fun p => p.name)).Nodup

instance (participants : List Participant) : Decidable (NamesDistinct participants) :=
  inferInstanceAs (Decidable (List.Nodup (participants.map (fun p : Participant => p.name))))

/-- The winner indices in `[0, pool.length)` at which `startSpin` draws `name`. -/
def winningIndices (s : State) (name : String) : List Nat :=
  (List.range (buildWeightedPool s.participants).length).filter
    (fun i => (startSpin s i).2 == some (some name))

/-- The chance that `startSpin` draws `name` when the winner index is uniform
over `[0, pool.length)`: favourable indices over all indices. -/
def winProbability (s : State) (name : String) : ℚ :=
  ((winningIndices s name).length : ℚ) / ((buildWeightedPool s.participants).length : ℚ)

/-- Exactly one entry of `before` holds exactly one ticket less in `after`; every
other entry, and the order of the list, is the same. -/
def OneTicketDeducted (before after : List Participant) : Prop :=
  ∃ l1 p l2, before = l1 ++ p :: l2 ∧
    after = l1 ++ { p with tickets := p.tickets - 1 } :: l2

/-- No two participants carry the same id. -/
def IdsDistinct (participants : List Participant) : Prop :=
  (participants.map (fun p => p.id)).Nodup

instance (participants : List Participant) : Decidable (IdsDistinct participants) :=
  inferInstanceAs (Decidable (List.Nodup (participants.map (fun p : Participant => p.id))))

/-- The import as the specification words it, to compare `parseLines` with: of the
lines with their positions, keep those at a position of at least 1 whose trimmed
text is non-empty, in line order, and make each a participant with the position
as id, the trimmed text as name and 1 ticket. -/
def parseLinesSpec (trim : String → String) (lines : List String) : List Participant :=
  (lines.enum.filter (fun row => decide (1 ≤ row.1) && (trim row.2 != ""))).map
    (fun row => { id := (row.1 : Int), name := trim row.2, tickets := 1 })

/-- The angle of the wheel, in `[0, 360)`, that lies under the fixed pointer at 0
degrees when the canvas is turned by `rotation` degrees (`rotate(...deg)`): the
representative of `-rotation` modulo 360. -/
def wheelAngleAtPointer (rotation : ℚ) : ℚ :=
  -rotation - 360 * (⌊-rotation / 360⌋ : ℚ)

/-! ## Auxiliary lemmas -/

theorem foldl_pool_acc (ps : List Participant) (acc : List String) :
    ps.foldl (fun pool p => pool ++ List.replicate p.tickets.toNat p.name) acc
      = acc ++ buildWeightedPool ps := by
  induction ps generalizing acc with
  | nil => simp [buildWeightedPool]
  | cons p ps ih =>
    simp only [buildWeightedPool, List.foldl_cons, List.nil_append]
    rw [ih, ih (List.replicate p.tickets.toNat p.name), List.append_assoc]

@[simp] theorem buildWeightedPool_nil : buildWeightedPool [] = [] := rfl

theorem buildWeightedPool_cons (p : Participant) (ps : List Participant) :
    buildWeightedPool (p :: ps)
      = List.replicate p.tickets.toNat p.name ++ buildWeightedPool ps := by
  show List.foldl _ _ _ = _
  rw [List.foldl_cons, List.nil_append, foldl_pool_acc]

theorem foldl_total_acc (ps : List Participant) (acc : Int) :
    ps.foldl (fun sum p => sum + p.tickets) acc = acc + getTotalTickets ps := by
  induction ps generalizing acc with
  | nil => simp [getTotalTickets]
  | cons p ps ih =>
    simp only [getTotalTickets, List.foldl_cons, zero_add]
    rw [ih, ih p.tickets, add_assoc]

@[simp] theorem getTotalTickets_nil : getTotalTickets [] = 0 := rfl

theorem getTotalTickets_cons (p : Participant) (ps : List Participant) :
    getTotalTickets (p :: ps) = p.tickets + getTotalTickets ps := by
  show List.foldl _ _ _ = _
  rw [List.foldl_cons, zero_add, foldl_total_acc]

theorem pool_length_total (ps : List Participant) (h : TicketsNonneg ps) :
    ((buildWeightedPool ps).length : Int) = getTotalTickets ps := by
  induction ps with
  | nil => simp
  | cons p ps ih =>
    have hp : 0 ≤ p.tickets := h p (List.mem_cons_self _ _)
    have hps : TicketsNonneg ps := fun q hq => h q (List.mem_cons_of_mem _ hq)
    rw [buildWeightedPool_cons, getTotalTickets_cons, List.length_append,
      List.length_replicate, Nat.cast_add, ih hps, Int.toNat_of_nonneg hp]

theorem mem_buildWeightedPool (ps : List Participant) (n : String) :
    n ∈ buildWeightedPool ps ↔ ∃ q ∈ ps, q.name = n ∧ 0 < q.tickets := by
  induction ps with
  | nil => simp
  | cons p ps ih =>
    rw [buildWeightedPool_cons, List.mem_append, ih, List.mem_replicate]
    constructor
    · rintro (⟨h0, hn⟩ | ⟨q, hq, hqn, hqt⟩)
      · refine ⟨p, List.mem_cons_self _ _, hn.symm, ?_⟩
        omega
      · exact ⟨q, List.mem_cons_of_mem _ hq, hqn, hqt⟩
    · rintro ⟨q, hq, hqn, hqt⟩
      rcases List.mem_cons.mp hq with rfl | hq
      · left
        refine ⟨?_, hqn.symm⟩
        omega
      · exact Or.inr ⟨q, hq, hqn, hqt⟩

theorem count_pool_of_distinct (ps : List Participant) (hd : NamesDistinct ps)
    (p : Participant) (hp : p ∈ ps) :
    (buildWeightedPool ps).count p.name = p.tickets.toNat := by
  induction ps with
  | nil => simp at hp
  | cons q ps ih =>
    have hq : q.name ∉ ps.map (fun r => r.name) := (List.nodup_cons.mp hd).1
    have hps : NamesDistinct ps := (List.nodup_cons.mp hd).2
    rw [buildWeightedPool_cons, List.count_append, List.count_replicate]
    rcases List.mem_cons.mp hp with rfl | hp
    · have : p.name ∉ buildWeightedPool ps := by
        intro hmem
        obtain ⟨r, hr, hrn, _⟩ := (mem_buildWeightedPool ps p.name).mp hmem
        exact hq (List.mem_map.mpr ⟨r, hr, hrn⟩)
      simp [List.count_eq_zero.mpr this]
    · have hne : q.name ≠ p.name := by
        intro h
        exact hq (List.mem_map.mpr ⟨p, hp, h.symm⟩)
      simp [hne, ih hps hp]

theorem length_filter_range_getElem? (l : List String) (a : String) :
    ((List.range l.length).filter (fun i => l[i]? == some a)).length = l.count a := by
  induction l with
  | nil => simp
  | cons b l ih =>
    rw [List.length_cons, List.range_succ_eq_map, List.filter_cons, List.filter_map]
    simp only [List.getElem?_cons_zero, Function.comp_def, List.getElem?_cons_succ,
      List.length_map, List.count_cons]
    rw [← ih]
    by_cases h : b = a
    · simp [h]
    · simp [h]

theorem startSpin_of_guards (s : State) (i : Nat) (hs : s.isSpinning = false)
    (ht : getTotalTickets s.participants ≠ 0) :
    startSpin s i
      = ({ s with isSpinning := true }, some ((buildWeightedPool s.participants)[i]?)) := by
  simp [startSpin, hs, ht]

theorem confirmWinner_of_none (s : State) (h : s.pendingWinner = none) :
    confirmWinner s = s := by
  simp only [confirmWinner, h]

theorem confirmWinner_of_empty (s : State) (h : s.pendingWinner = some "") :
    confirmWinner s = s := by
  simp [confirmWinner, h, isTruthy]

theorem confirmWinner_of_truthy (s : State) (w : String) (h : s.pendingWinner = some w)
    (hne : w ≠ "") :
    confirmWinner s =
      { s with
        participants :=
          match s.participants.find? (fun p => p.name == w) with
          | some p =>
            if p.tickets > 0 then
              modifyFirst (fun q => q.name == w)
                (fun q => { q with tickets := q.tickets - 1 }) s.participants
            else s.participants
          | none => s.participants
        winners := s.winners ++ [{ prize := s.currentPrize, name := w }]
        pendingWinner := none } := by
  simp [confirmWinner, h, isTruthy, hne]

theorem find?_of_distinct (ps : List Participant) (hd : NamesDistinct ps)
    (q : Participant) (hq : q ∈ ps) :
    ps.find? (fun p => p.name == q.name) = some q := by
  induction ps with
  | nil => simp at hq
  | cons r ps ih =>
    have hr : r.name ∉ ps.map (fun x => x.name) := (List.nodup_cons.mp hd).1
    rcases List.mem_cons.mp hq with rfl | hq
    · simp
    · have hne : r.name ≠ q.name := fun h => hr (List.mem_map.mpr ⟨q, hq, h.symm⟩)
      have hb : (r.name == q.name) = false := by simpa using hne
      rw [List.find?_cons, hb]
      exact ih (List.nodup_cons.mp hd).2 hq

theorem modifyFirst_split (pred : Participant → Bool) (f : Participant → Participant)
    (ps : List Participant) (p : Participant) (h : ps.find? pred = some p) :
    ∃ l1 l2, ps = l1 ++ p :: l2 ∧ modifyFirst pred f ps = l1 ++ f p :: l2 := by
  induction ps with
  | nil => simp at h
  | cons r ps ih =>
    by_cases hr : pred r = true
    · have : r = p := by simpa [List.find?_cons, hr] using h
      subst this
      exact ⟨[], ps, rfl, by simp [modifyFirst, hr]⟩
    · have h2 : ps.find? pred = some p := by simpa [List.find?_cons, hr] using h
      obtain ⟨l1, l2, h1, hm⟩ := ih h2
      refine ⟨r :: l1, l2, by rw [h1]; rfl, ?_⟩
      simp [modifyFirst, hr, hm]

theorem not_oneTicketDeducted_self (ps : List Participant) : ¬ OneTicketDeducted ps ps := by
  rintro ⟨l1, p, l2, h1, h2⟩
  rw [h1] at h2
  have h3 := List.append_cancel_left h2
  have h4 : p.tickets = p.tickets - 1 :=
    congrArg Participant.tickets (List.cons.inj h3).1
  omega

theorem find?_append_first (pred : Participant → Bool) (l1 : List Participant)
    (p : Participant) (l2 : List Participant) (h1 : ∀ q ∈ l1, pred q = false)
    (hp : pred p = true) :
    (l1 ++ p :: l2).find? pred = some p := by
  induction l1 with
  | nil => simp [List.find?_cons, hp]
  | cons r l1 ih =>
    have hr : pred r = false := h1 r (List.mem_cons_self _ _)
    rw [List.cons_append, List.find?_cons, hr]
    exact ih (fun q hq => h1 q (List.mem_cons_of_mem _ hq))

theorem modifyFirst_append_first (pred : Participant → Bool) (f : Participant → Participant)
    (l1 : List Participant) (p : Participant) (l2 : List Participant)
    (h1 : ∀ q ∈ l1, pred q = false) (hp : pred p = true) :
    modifyFirst pred f (l1 ++ p :: l2) = l1 ++ f p :: l2 := by
  induction l1 with
  | nil => simp [modifyFirst, hp]
  | cons r l1 ih =>
    have hr : pred r = false := h1 r (List.mem_cons_self _ _)
    rw [List.cons_append, modifyFirst, hr]
    simp [ih (fun q hq => h1 q (List.mem_cons_of_mem _ hq))]

theorem ticketsNonneg_modifyFirst (pred : Participant → Bool) (f : Participant → Participant)
    (ps : List Participant) (p : Participant) (hfind : ps.find? pred = some p)
    (hnn : TicketsNonneg ps) (hf : 0 ≤ (f p).tickets) :
    TicketsNonneg (modifyFirst pred f ps) := by
  obtain ⟨l1, l2, hsplit, hmod⟩ := modifyFirst_split pred f ps p hfind
  intro r hr
  rw [hmod] at hr
  rcases List.mem_append.mp hr with h | h
  · exact hnn r (by rw [hsplit]; exact List.mem_append_left _ h)
  · rcases List.mem_cons.mp h with rfl | h
    · exact hf
    · exact hnn r (by rw [hsplit]; exact List.mem_append_right _ (List.mem_cons_of_mem _ h))

theorem adjustTicketsLegacy_nonneg (s : State) (id delta : Int)
    (h : TicketsNonneg s.participants) :
    TicketsNonneg (adjustTicketsLegacy s id delta).participants := by
  unfold adjustTicketsLegacy
  cases hfind : s.participants.find? (fun p => p.id == id) with
  | none => exact h
  | some q =>
    by_cases hneg : q.tickets + delta < 0
    · simpa [hneg] using h
    · simp only [hneg, if_false]
      exact ticketsNonneg_modifyFirst _ _ _ q hfind h (by show 0 ≤ q.tickets + delta; omega)

theorem adjustTickets_eq_legacy (s : State) (id delta : Int) (hs : s.isSpinning = false) :
    adjustTickets s id delta = adjustTicketsLegacy s id delta := by
  simp [adjustTickets, adjustTicketsLegacy, hs]

theorem adjustTickets_of_spinning (s : State) (id delta : Int) (hs : s.isSpinning = true) :
    adjustTickets s id delta = s := by
  simp [adjustTickets, hs]

theorem confirmWinner_nonneg (s : State) (h : TicketsNonneg s.participants) :
    TicketsNonneg (confirmWinner s).participants := by
  cases hp : s.pendingWinner with
  | none => rw [confirmWinner_of_none s hp]; exact h
  | some w =>
    by_cases hw : w = ""
    · subst hw
      rw [confirmWinner_of_empty s hp]
      exact h
    · rw [confirmWinner_of_truthy s w hp hw]
      show TicketsNonneg (match s.participants.find? (fun p => p.name == w) with
        | some p =>
          if p.tickets > 0 then
            modifyFirst (fun q => q.name == w)
              (fun q => { q with tickets := q.tickets - 1 }) s.participants
          else s.participants
        | none => s.participants)
      cases hfind : s.participants.find? (fun p => p.name == w) with
      | none => exact h
      | some q =>
        by_cases hq : q.tickets > 0
        · simp only [hq, if_true]
          exact ticketsNonneg_modifyFirst _ _ _ q hfind h (by show 0 ≤ q.tickets - 1; omega)
        · simpa [hq] using h

theorem findIdx?_append_first (pred : Participant → Bool) (l1 : List Participant)
    (p : Participant) (l2 : List Participant) (i : Nat) (h1 : ∀ q ∈ l1, pred q = false)
    (hp : pred p = true) :
    (l1 ++ p :: l2).findIdx? pred i = some (i + l1.length) := by
  induction l1 generalizing i with
  | nil => simp [List.findIdx?_cons, hp]
  | cons r l1 ih =>
    have hr : pred r = false := h1 r (List.mem_cons_self _ _)
    rw [List.cons_append, List.findIdx?_cons, hr]
    simp only [Bool.false_eq_true, if_false, List.length_cons]
    rw [ih (i + 1) (fun q hq => h1 q (List.mem_cons_of_mem _ hq))]
    congr 1
    omega

theorem findIdx?_none_of_all (pred : Participant → Bool) (ps : List Participant) (i : Nat)
    (h : ∀ q ∈ ps, pred q = false) : ps.findIdx? pred i = none := by
  induction ps generalizing i with
  | nil => rfl
  | cons r ps ih =>
    rw [List.findIdx?_cons, h r (List.mem_cons_self _ _)]
    simp only [Bool.false_eq_true, if_false]
    exact ih (i + 1) (fun q hq => h q (List.mem_cons_of_mem _ hq))

theorem eraseIdx_append_length (l1 : List Participant) (p : Participant)
    (l2 : List Participant) : (l1 ++ p :: l2).eraseIdx l1.length = l1 ++ l2 := by
  rw [List.eraseIdx_append_of_length_le (le_refl _)]
  simp

theorem removeParticipant_subset (s : State) (id : Int) :
    ∀ q ∈ (removeParticipant s id).participants, q ∈ s.participants := by
  intro q hq
  unfold removeParticipant at hq
  cases hidx : s.participants.findIdx? (fun p => p.id == id) with
  | none => simpa [hidx] using hq
  | some index =>
    rw [hidx] at hq
    exact List.mem_of_mem_eraseIdx hq

theorem maxId_cons (p : Participant) (ps : List Participant) :
    maxId (p :: ps) = max p.id (maxId ps) := rfl

theorem maxId_nonneg (ps : List Participant) : 0 ≤ maxId ps := by
  induction ps with
  | nil => exact le_refl _
  | cons p ps ih =>
    rw [maxId_cons]
    exact le_trans ih (le_max_right _ _)

theorem le_maxId (ps : List Participant) : ∀ p ∈ ps, p.id ≤ maxId ps := by
  induction ps with
  | nil => intro p hp; simp at hp
  | cons q ps ih =>
    intro p hp
    rw [maxId_cons]
    rcases List.mem_cons.mp hp with rfl | hp
    · exact le_max_left _ _
    · exact le_trans (ih p hp) (le_max_right _ _)

theorem maxId_eq_zero_or_mem (ps : List Participant) :
    maxId ps = 0 ∨ ∃ p ∈ ps, p.id = maxId ps := by
  induction ps with
  | nil => exact Or.inl rfl
  | cons q ps ih =>
    rw [maxId_cons]
    rcases le_total q.id (maxId ps) with hle | hle
    · rw [max_eq_right hle]
      rcases ih with h0 | ⟨p, hp, hpid⟩
      · exact Or.inl h0
      · exact Or.inr ⟨p, List.mem_cons_of_mem _ hp, hpid⟩
    · rw [max_eq_left hle]
      exact Or.inr ⟨q, List.mem_cons_self _ _, rfl⟩

theorem eraseIdx_split (ws : List WinnerRecord) (i : Nat) (hi : i < ws.length) :
    ∃ l1 l2, ws = l1 ++ ws[i] :: l2 ∧ l1.length = i ∧ ws.eraseIdx i = l1 ++ l2 := by
  refine ⟨ws.take i, ws.drop (i + 1), ?_, ?_, ?_⟩
  · rw [List.getElem_cons_drop, List.take_append_drop]
  · rw [List.length_take]
    omega
  · exact List.eraseIdx_eq_take_drop_succ ws i

theorem removeWinner_of_range (s : State) (i : Nat) (hi : i < s.winners.length) :
    removeWinner s (i : Int) true = { s with winners := s.winners.eraseIdx i } := by
  have h1 : ¬ ((i : Int) < 0 ∨ (i : Int) ≥ (s.winners.length : Int)) := by omega
  simp only [removeWinner, h1, if_false, if_true, Int.toNat_ofNat]

theorem startSpin_snd_mem_pool (s : State) (i : Nat) (n : String)
    (h : (startSpin s i).2 = some (some n)) : n ∈ buildWeightedPool s.participants := by
  unfold startSpin at h
  by_cases hs : s.isSpinning = true
  · simp [hs] at h
  · by_cases h0 : getTotalTickets s.participants = 0
    · simp [hs, h0] at h
    · simp only [hs, h0, if_false, Bool.false_eq_true] at h
      exact List.mem_iff_getElem?.mpr ⟨i, by simpa using h⟩

theorem startSpinLegacy_snd_mem_pool (b : Bool) (s : State) (i : Nat) (n : String)
    (h : (startSpinLegacy b s i).2 = some (some n)) :
    n ∈ buildWeightedPool s.participants := by
  unfold startSpinLegacy at h
  by_cases hs : s.isSpinning = true
  · simp [hs] at h
  · by_cases hb : b = true
    · simp [hs, hb] at h
    · by_cases h0 : getTotalTickets s.participants = 0
      · simp [hs, hb, h0] at h
      · simp only [hs, hb, h0, if_false, Bool.false_eq_true] at h
        exact List.mem_iff_getElem?.mpr ⟨i, by simpa using h⟩

theorem parseLinesFrom_eq_filter_map (trim : String → String) (i : Nat) (l : List String) :
    parseLinesFrom trim i l
      = ((l.enumFrom i).filter (fun row => trim row.2 != "")).map
          (fun row => { id := (row.1 : Int), name := trim row.2, tickets := 1 }) := by
  induction l generalizing i with
  | nil => rfl
  | cons line rest ih =>
    rw [parseLinesFrom, List.enumFrom_cons, List.filter_cons]
    by_cases h : trim line = ""
    · simp [h, ih]
    · simp [h, ih]

theorem filter_enumFrom_pos (q : Nat × String → Bool) (i : Nat) (hi : 1 ≤ i)
    (l : List String) :
    (l.enumFrom i).filter (fun row => decide (1 ≤ row.1) && q row)
      = (l.enumFrom i).filter q := by
  induction l generalizing i with
  | nil => rfl
  | cons line rest ih =>
    rw [List.enumFrom_cons, List.filter_cons, List.filter_cons, ih (i + 1) (by omega)]
    simp [hi]

theorem parseLines_eq_spec (trim : String → String) (lines : List String) :
    parseLines trim lines = parseLinesSpec trim lines := by
  unfold parseLines parseLinesSpec
  rw [parseLinesFrom_eq_filter_map]
  cases lines with
  | nil => rfl
  | cons line rest =>
    rw [List.drop_one, List.tail_cons, List.enum, List.enumFrom_cons, List.filter_cons]
    simp only [zero_add]
    rw [show (decide (1 ≤ (0, line).1) && (trim (0, line).2 != "")) = false by simp]
    simp only [Bool.false_eq_true, if_false]
    rw [filter_enumFrom_pos (fun row => trim row.2 != "") 1 (le_refl _)]

theorem parseLinesFrom_id_ge (trim : String → String) (i : Nat) (l : List String) :
    ∀ p ∈ parseLinesFrom trim i l, (i : Int) ≤ p.id := by
  induction l generalizing i with
  | nil => intro p hp; simp [parseLinesFrom] at hp
  | cons line rest ih =>
    intro p hp
    rw [parseLinesFrom] at hp
    by_cases h : trim line = ""
    · simp only [h, ne_eq, not_true_eq_false, if_false] at hp
      have := ih (i + 1) p hp
      omega
    · simp only [h, ne_eq, not_false_eq_true, if_true] at hp
      rcases List.mem_cons.mp hp with rfl | hp
      · exact le_refl _
      · have := ih (i + 1) p hp
        omega

theorem parseLinesFrom_ids_increasing (trim : String → String) (i : Nat) (l : List String) :
    ((parseLinesFrom trim i l).map (fun p => p.id)).Pairwise (fun a b => a < b) := by
  induction l generalizing i with
  | nil => simp [parseLinesFrom]
  | cons line rest ih =>
    rw [parseLinesFrom]
    by_cases h : trim line = ""
    · simp only [h, ne_eq, not_true_eq_false, if_false]
      exact ih (i + 1)
    · simp only [h, ne_eq, not_false_eq_true, if_true, List.map_cons]
      refine List.pairwise_cons.mpr ⟨?_, ih (i + 1)⟩
      intro a ha
      obtain ⟨p, hp, rfl⟩ := List.mem_map.mp ha
      have := parseLinesFrom_id_ge trim (i + 1) rest p hp
      omega

theorem parseLinesFrom_tickets (trim : String → String) (i : Nat) (l : List String) :
    ∀ p ∈ parseLinesFrom trim i l, p.tickets = 1 := by
  induction l generalizing i with
  | nil => intro p hp; simp [parseLinesFrom] at hp
  | cons line rest ih =>
    intro p hp
    rw [parseLinesFrom] at hp
    by_cases h : trim line = ""
    · simp only [h, ne_eq, not_true_eq_false, if_false] at hp
      exact ih (i + 1) p hp
    · simp only [h, ne_eq, not_false_eq_true, if_true] at hp
      rcases List.mem_cons.mp hp with rfl | hp
      · rfl
      · exact ih (i + 1) p hp

theorem total_of_all_one (ps : List Participant) (h : ∀ p ∈ ps, p.tickets = 1) :
    getTotalTickets ps = (ps.length : Int) := by
  induction ps with
  | nil => rfl
  | cons p ps ih =>
    rw [getTotalTickets_cons, h p (List.mem_cons_self _ _),
      ih (fun q hq => h q (List.mem_cons_of_mem _ hq)), List.length_cons]
    push_cast
    ring

theorem jsRem_congr (a b : ℚ) : ∃ t : Int, jsRem a b = a - b * (t : ℚ) :=
  ⟨truncateQuotient (a / b), rfl⟩

theorem currentAngleMod_congr (r : ℚ) : ∃ t : Int, currentAngleMod r = r - 360 * (t : ℚ) := by
  unfold currentAngleMod
  obtain ⟨t1, h1⟩ := jsRem_congr r 360
  obtain ⟨t2, h2⟩ := jsRem_congr (jsRem r 360 + 360) 360
  refine ⟨t1 + t2 - 1, ?_⟩
  rw [h2, h1]
  push_cast
  ring

theorem stopAngle_eq (N w : Nat) :
    stopAngle N w = 360 - ((w : ℚ) * 360 / (N : ℚ) + 360 / (2 * (N : ℚ))) := by
  unfold stopAngle sliceAngle
  ring

theorem targetAngle_congr (r : ℚ) (N w e : Nat) :
    ∃ k : Int, targetAngle r N w e = stopAngle N w + 360 * (k : ℚ) := by
  obtain ⟨t, ht⟩ := currentAngleMod_congr r
  unfold targetAngle
  simp only
  by_cases h : stopAngle N w - currentAngleMod r ≤ 0
  · refine ⟨5 + (e : Int) + t + 1, ?_⟩
    rw [if_pos h, ht]
    push_cast
    ring
  · refine ⟨5 + (e : Int) + t, ?_⟩
    rw [if_neg h, ht]
    push_cast
    ring

theorem targetAngleLegacy_congr (N w e : Nat) :
    ∃ k : Int, targetAngleLegacy N w e = stopAngle N w + 360 * (k : ℚ) := by
  refine ⟨5 + (e : Int), ?_⟩
  unfold targetAngleLegacy stopAngle sliceAngle
  push_cast
  ring

theorem sliceCentre_bounds (N w : Nat) (hN : 1 ≤ N) (hw : w < N) :
    0 ≤ (w : ℚ) * 360 / (N : ℚ) + 360 / (2 * (N : ℚ)) ∧
      (w : ℚ) * 360 / (N : ℚ) + 360 / (2 * (N : ℚ)) < 360 ∧
      sliceStart N w < (w : ℚ) * 360 / (N : ℚ) + 360 / (2 * (N : ℚ)) ∧
      (w : ℚ) * 360 / (N : ℚ) + 360 / (2 * (N : ℚ)) < sliceEnd N w := by
  have hNq : (0 : ℚ) < (N : ℚ) := by exact_mod_cast hN
  have hwq : (w : ℚ) + 1 ≤ (N : ℚ) := by exact_mod_cast hw
  have hw0 : (0 : ℚ) ≤ (w : ℚ) := by exact_mod_cast Nat.zero_le w
  have hc : (w : ℚ) * 360 / (N : ℚ) + 360 / (2 * (N : ℚ))
      = (2 * (w : ℚ) + 1) * 180 / (N : ℚ) := by
    field_simp
    ring
  have hhalf : (0 : ℚ) < 180 / (N : ℚ) := by positivity
  refine ⟨?_, ?_, ?_, ?_⟩
  · positivity
  · rw [hc, div_lt_iff₀ hNq]
    nlinarith
  · unfold sliceStart
    have : (w : ℚ) * 360 / (N : ℚ) + 360 / (2 * (N : ℚ))
        = (w : ℚ) * (360 / (N : ℚ)) + 180 / (N : ℚ) := by
      field_simp
      ring
    rw [this]
    linarith
  · unfold sliceEnd sliceStart
    have : (w : ℚ) * 360 / (N : ℚ) + 360 / (2 * (N : ℚ))
        = (w : ℚ) * (360 / (N : ℚ)) + 360 / (N : ℚ) - 180 / (N : ℚ) := by
      field_simp
      ring
    rw [this]
    linarith

theorem wheelAngleAtPointer_of_congr (x c : ℚ) (k : Int) (h0 : 0 ≤ c) (h1 : c < 360)
    (hx : x = 360 - c + 360 * (k : ℚ)) : wheelAngleAtPointer x = c := by
  unfold wheelAngleAtPointer
  have hdiv : -x / 360 = c / 360 + ((-(k + 1) : Int) : ℚ) := by
    rw [hx]
    push_cast
    ring
  have hfloor : ⌊c / 360⌋ = 0 := by
    rw [Int.floor_eq_zero_iff]
    constructor
    · positivity
    · rw [div_lt_one (by norm_num)]
      exact h1
  rw [hdiv, Int.floor_add_int, hfloor, hx]
  push_cast
  ring

theorem confirmWinner_deducts_from_first_holder (s : State) (w : String)
    (hp : s.pendingWinner = some w) (hne : w ≠ "") (l1 : List Participant)
    (q : Participant) (l2 : List Participant) (hsplit : s.participants = l1 ++ q :: l2)
    (hfirst : ∀ r ∈ l1, r.name ≠ w) (hq : q.name = w) (hqt : 0 < q.tickets) :
    (confirmWinner s).participants = l1 ++ { q with tickets := q.tickets - 1 } :: l2 := by
  have h1 : ∀ r ∈ l1, (fun p : Participant => p.name == w) r = false := by
    intro r hr
    simpa using hfirst r hr
  have h2 : (fun p : Participant => p.name == w) q = true := by simpa using hq
  have hfind : s.participants.find? (fun p => p.name == w) = some q := by
    rw [hsplit]
    exact find?_append_first _ l1 q l2 h1 h2
  rw [confirmWinner_of_truthy s w hp hne]
  simp only [hfind, gt_iff_lt, hqt, if_true]
  rw [hsplit]
  exact modifyFirst_append_first _ _ l1 q l2 h1 h2

theorem confirmWinner_deducts_at_most_one (s : State) (w : String)
    (hp : s.pendingWinner = some w) (hne : w ≠ "") :
    OneTicketDeducted s.participants (confirmWinner s).participants ∨
      (confirmWinner s).participants = s.participants := by
  rw [confirmWinner_of_truthy s w hp hne]
  show OneTicketDeducted s.participants
      (match s.participants.find? (fun p => p.name == w) with
        | some p =>
          if p.tickets > 0 then
            modifyFirst (fun q => q.name == w)
              (fun q => { q with tickets := q.tickets - 1 }) s.participants
          else s.participants
        | none => s.participants) ∨
    (match s.participants.find? (fun p => p.name == w) with
        | some p =>
          if p.tickets > 0 then
            modifyFirst (fun q => q.name == w)
              (fun q => { q with tickets := q.tickets - 1 }) s.participants
          else s.participants
        | none => s.participants) = s.participants
  cases hfind : s.participants.find? (fun p => p.name == w) with
  | none => exact Or.inr rfl
  | some q =>
    by_cases hq : q.tickets > 0
    · left
      simp only [hq, if_true]
      obtain ⟨l1, l2, hsplit, hmod⟩ := modifyFirst_split (fun p => p.name == w)
        (fun p => { p with tickets := p.tickets - 1 }) s.participants q hfind
      exact ⟨l1, q, l2, hsplit, hmod⟩
    · right
      simp only [hq, if_false]

/-! ## Properties -/

/-- C1: when every ticket count is a non-negative integer, the weighted pool has
as many entries as `getTotalTickets` returns, the sum of all ticket counts. -/
theorem buildWeightedPool_length_eq_total (ps : List Participant)
    (h : TicketsNonneg ps) :
    ((buildWeightedPool ps).length : Int) = getTotalTickets ps :=
  pool_length_total ps h

theorem buildWeightedPool_length_eq_total_witness :
    TicketsNonneg [⟨1, "A", 2⟩, ⟨2, "B", 1⟩] ∧
      ((buildWeightedPool [⟨1, "A", 2⟩, ⟨2, "B", 1⟩]).length : Int)
        = getTotalTickets [⟨1, "A", 2⟩, ⟨2, "B", 1⟩] :=
  ⟨by decide, buildWeightedPool_length_eq_total _ (by decide)⟩

/-- C2 (as stated, refuted): two participants may carry the same name, and then the
occurrences of that name in the pool are the tickets of both, not of one. -/
theorem pool_count_duplicate_name_counterexample :
    ¬ (∀ p ∈ ([⟨1, "A", 1⟩, ⟨2, "A", 2⟩] : List Participant),
        ((buildWeightedPool [⟨1, "A", 1⟩, ⟨2, "A", 2⟩]).count p.name : Int) = p.tickets) := by
  decide

/-- C2 (amended): for a participant list with pairwise distinct names and a
participant `p` in it with a non-negative ticket count, the name of `p` occurs in
the weighted pool exactly `p.tickets` times; with 0 tickets it does not occur. -/
theorem pool_count_eq_tickets (ps : List Participant) (hd : NamesDistinct ps)
    (p : Participant) (hp : p ∈ ps) (hnn : 0 ≤ p.tickets) :
    ((buildWeightedPool ps).count p.name : Int) = p.tickets ∧
      (p.tickets = 0 → p.name ∉ buildWeightedPool ps) := by
  have hc := count_pool_of_distinct ps hd p hp
  refine ⟨by rw [hc, Int.toNat_of_nonneg hnn], fun h0 => ?_⟩
  apply List.count_eq_zero.mp
  rw [hc, h0]
  rfl

theorem pool_count_eq_tickets_witness :
    (((buildWeightedPool [⟨1, "A", 2⟩, ⟨2, "B", 0⟩]).count "A" : Int) = 2 ∧
        ((2 : Int) = 0 → "A" ∉ buildWeightedPool [⟨1, "A", 2⟩, ⟨2, "B", 0⟩])) ∧
      "B" ∉ buildWeightedPool [⟨1, "A", 2⟩, ⟨2, "B", 0⟩] :=
  ⟨pool_count_eq_tickets [⟨1, "A", 2⟩, ⟨2, "B", 0⟩] (by decide) ⟨1, "A", 2⟩ (by decide)
      (by decide),
    (pool_count_eq_tickets [⟨1, "A", 2⟩, ⟨2, "B", 0⟩] (by decide) ⟨2, "B", 0⟩ (by decide)
      (by decide)).2 rfl⟩

/-- C3: in an idle state with pairwise distinct names, non-negative ticket counts
and `N = getTotalTickets > 0`, the winner index ranges over `N` values, exactly
`p.tickets` of them make `startSpin` draw the name of `p`, so under a uniform
index `p` is drawn with probability `p.tickets / N`; a participant with 3 tickets
is drawn exactly 3 times as often as one with 1 ticket. -/
theorem startSpin_win_probability (s : State) (hs : s.isSpinning = false)
    (hd : NamesDistinct s.participants) (hnn : TicketsNonneg s.participants)
    (hN : 0 < getTotalTickets s.participants) (p : Participant)
    (hp : p ∈ s.participants) :
    ((buildWeightedPool s.participants).length : Int) = getTotalTickets s.participants ∧
      ((winningIndices s p.name).length : Int) = p.tickets ∧
      winProbability s p.name
        = (p.tickets : ℚ) / (getTotalTickets s.participants : ℚ) ∧
      (∀ q ∈ s.participants, p.tickets = 3 → q.tickets = 1 →
        winProbability s p.name = 3 * winProbability s q.name) := by
  have hlen := pool_length_total s.participants hnn
  have hidx : ∀ r ∈ s.participants, ((winningIndices s r.name).length : Int) = r.tickets := by
    intro r hr
    have hfun : (fun i => (startSpin s i).2 == some (some r.name))
        = (fun i => (buildWeightedPool s.participants)[i]? == some r.name) := by
      funext i
      rw [startSpin_of_guards s i hs (ne_of_gt hN)]
      simp
    unfold winningIndices
    rw [hfun, length_filter_range_getElem?, count_pool_of_distinct _ hd r hr,
      Int.toNat_of_nonneg (hnn r hr)]
  have hprob : ∀ r ∈ s.participants,
      winProbability s r.name = (r.tickets : ℚ) / (getTotalTickets s.participants : ℚ) := by
    intro r hr
    unfold winProbability
    have h1 : ((winningIndices s r.name).length : ℚ) = (r.tickets : ℚ) := by
      exact_mod_cast hidx r hr
    have h2 : ((buildWeightedPool s.participants).length : ℚ)
        = (getTotalTickets s.participants : ℚ) := by
      exact_mod_cast hlen
    rw [h1, h2]
  refine ⟨hlen, hidx p hp, hprob p hp, ?_⟩
  intro q hq hp3 hq1
  rw [hprob p hp, hprob q hq, hp3, hq1]
  push_cast
  ring

theorem startSpin_win_probability_witness :
    ((buildWeightedPool [⟨1, "A", 3⟩, ⟨2, "B", 1⟩]).length : Int)
        = getTotalTickets [⟨1, "A", 3⟩, ⟨2, "B", 1⟩] ∧
      ((winningIndices ⟨[⟨1, "A", 3⟩, ⟨2, "B", 1⟩], [], "X", false, none⟩ "A").length : Int)
        = 3 ∧
      winProbability ⟨[⟨1, "A", 3⟩, ⟨2, "B", 1⟩], [], "X", false, none⟩ "A"
        = ((3 : Int) : ℚ) / (getTotalTickets [⟨1, "A", 3⟩, ⟨2, "B", 1⟩] : ℚ) ∧
      winProbability ⟨[⟨1, "A", 3⟩, ⟨2, "B", 1⟩], [], "X", false, none⟩ "A"
        = 3 * winProbability ⟨[⟨1, "A", 3⟩, ⟨2, "B", 1⟩], [], "X", false, none⟩ "B" :=
  have h := startSpin_win_probability ⟨[⟨1, "A", 3⟩, ⟨2, "B", 1⟩], [], "X", false, none⟩ rfl
    (by decide) (by decide) (by decide) ⟨1, "A", 3⟩ (by decide)
  ⟨h.1, h.2.1, h.2.2.1, h.2.2.2 ⟨2, "B", 1⟩ (by decide) rfl rfl⟩

/-- C4: when `startSpin` passes its guards (not spinning, total tickets above 0)
and the winner index lies in `[0, pool.length)`, the lookup `pool[winnerIndex]` is
defined and the name drawn belongs to a participant holding at least 1 ticket; a
name carried only by zero-ticket participants is never drawn. -/
theorem startSpin_draws_ticket_holder (s : State) (i : Nat) (hs : s.isSpinning = false)
    (hN : 0 < getTotalTickets s.participants)
    (hi : i < (buildWeightedPool s.participants).length) :
    (∃ name, (startSpin s i).2 = some (some name) ∧
        ∃ p ∈ s.participants, p.name = name ∧ 1 ≤ p.tickets) ∧
      (∀ n, (∀ p ∈ s.participants, p.name = n → p.tickets = 0) →
        (startSpin s i).2 ≠ some (some n)) := by
  have hspin := startSpin_of_guards s i hs (ne_of_gt hN)
  have hget : (buildWeightedPool s.participants)[i]?
      = some ((buildWeightedPool s.participants)[i]) := List.getElem?_eq_getElem hi
  have hmem : (buildWeightedPool s.participants)[i] ∈ buildWeightedPool s.participants :=
    List.getElem_mem hi
  obtain ⟨p, hp, hpn, hpt⟩ := (mem_buildWeightedPool _ _).mp hmem
  refine ⟨⟨_, by rw [hspin, hget], p, hp, hpn, hpt⟩, ?_⟩
  intro n hzero hdraw
  rw [hspin, hget] at hdraw
  have hn : (buildWeightedPool s.participants)[i] = n := by
    simpa using hdraw
  have := hzero p hp (hpn.trans hn)
  omega

theorem startSpin_draws_ticket_holder_witness :
    (∃ name, (startSpin ⟨[⟨1, "A", 2⟩, ⟨2, "B", 0⟩], [], "X", false, none⟩ 1).2
          = some (some name) ∧
        ∃ p ∈ ([⟨1, "A", 2⟩, ⟨2, "B", 0⟩] : List Participant), p.name = name ∧ 1 ≤ p.tickets) ∧
      (startSpin ⟨[⟨1, "A", 2⟩, ⟨2, "B", 0⟩], [], "X", false, none⟩ 1).2
        ≠ some (some "B") :=
  have h := startSpin_draws_ticket_holder ⟨[⟨1, "A", 2⟩, ⟨2, "B", 0⟩], [], "X", false, none⟩ 1
    rfl (by decide) (by decide)
  ⟨h.1, h.2 "B" (by decide)⟩

/-- C5 (defect in the code): confirming a draw should take exactly one ticket from
the winner. Evaluated where it fails: the import of two lines with the same name
`A` gives two participants with 1 ticket each; drawing and confirming `A` once
takes the ticket of the first `A`; `A` is then drawn again, on the ticket of the
second `A`, and `confirmWinner` looks up the first `A`, finds 0 tickets and
deducts nothing, while it still writes the winner record: no participant has one
ticket less than before. -/
theorem confirmWinner_duplicate_name_no_deduction :
    parseLines id ["name", "A", "A"] = [⟨1, "A", 1⟩, ⟨2, "A", 1⟩] ∧
      (startSpin ⟨[⟨1, "A", 1⟩, ⟨2, "A", 1⟩], [], "X", false, none⟩ 0).2 = some (some "A") ∧
      confirmWinner
          (onSpinComplete (startSpin ⟨[⟨1, "A", 1⟩, ⟨2, "A", 1⟩], [], "X", false, none⟩ 0).1
            (some "A"))
        = ⟨[⟨1, "A", 0⟩, ⟨2, "A", 1⟩], [⟨"X", "A"⟩], "X", false, none⟩ ∧
      "A" ∈ buildWeightedPool [⟨1, "A", 0⟩, ⟨2, "A", 1⟩] ∧
      (startSpin ⟨[⟨1, "A", 0⟩, ⟨2, "A", 1⟩], [⟨"X", "A"⟩], "X", false, none⟩ 0).2
        = some (some "A") ∧
      confirmWinner
          (onSpinComplete
            (startSpin ⟨[⟨1, "A", 0⟩, ⟨2, "A", 1⟩], [⟨"X", "A"⟩], "X", false, none⟩ 0).1
            (some "A"))
        = ⟨[⟨1, "A", 0⟩, ⟨2, "A", 1⟩], [⟨"X", "A"⟩, ⟨"X", "A"⟩], "X", false, none⟩ ∧
      ¬ OneTicketDeducted [⟨1, "A", 0⟩, ⟨2, "A", 1⟩]
        (confirmWinner
          ⟨[⟨1, "A", 0⟩, ⟨2, "A", 1⟩], [⟨"X", "A"⟩], "X", false, some "A"⟩).participants := by
  refine ⟨by decide, by decide, by decide, by decide, by decide, by decide, ?_⟩
  have h : (confirmWinner
      ⟨[⟨1, "A", 0⟩, ⟨2, "A", 1⟩], [⟨"X", "A"⟩], "X", false, some "A"⟩).participants
      = [⟨1, "A", 0⟩, ⟨2, "A", 1⟩] := by decide
  rw [h]
  exact not_oneTicketDeducted_self _

/-- C6: with a pending winner `w` (a non-empty name), `confirmWinner` appends exactly
the record `{ prize: currentPrize, name: w }` behind the earlier records, which keep
their order; `currentPrize` is unchanged and `pendingWinner` is cleared. -/
theorem confirmWinner_appends_record (s : State) (w : String)
    (hp : s.pendingWinner = some w) (hne : w ≠ "") :
    (confirmWinner s).winners = s.winners ++ [{ prize := s.currentPrize, name := w }] ∧
      (confirmWinner s).currentPrize = s.currentPrize ∧
      (confirmWinner s).pendingWinner = none := by
  rw [confirmWinner_of_truthy s w hp hne]
  exact ⟨rfl, rfl, rfl⟩

theorem confirmWinner_appends_record_witness :
    (confirmWinner ⟨[⟨1, "A", 2⟩, ⟨2, "B", 1⟩], [⟨"Y", "B"⟩], "X", false, some "A"⟩).winners
        = [⟨"Y", "B"⟩] ++ [{ prize := "X", name := "A" }] ∧
      (confirmWinner ⟨[⟨1, "A", 2⟩, ⟨2, "B", 1⟩], [⟨"Y", "B"⟩], "X", false, some "A"⟩).currentPrize
        = "X" ∧
      (confirmWinner ⟨[⟨1, "A", 2⟩, ⟨2, "B", 1⟩], [⟨"Y", "B"⟩], "X", false, some "A"⟩).pendingWinner
        = none :=
  confirmWinner_appends_record ⟨[⟨1, "A", 2⟩, ⟨2, "B", 1⟩], [⟨"Y", "B"⟩], "X", false, some "A"⟩
    "A" rfl (by decide)

/-- C7 (as stated, refuted): after `onSpinComplete` a winner is pending and
`isSpinning` is false again, so a call of `startSpin` in that state passes the
guard, sets `isSpinning` and computes a new winner. -/
theorem startSpin_awaiting_counterexample :
    onSpinComplete (startSpin ⟨[⟨1, "A", 1⟩], [], "X", false, none⟩ 0).1 (some "A")
        = ⟨[⟨1, "A", 1⟩], [], "X", false, some "A"⟩ ∧
      startSpin ⟨[⟨1, "A", 1⟩], [], "X", false, some "A"⟩ 0
        = (⟨[⟨1, "A", 1⟩], [], "X", true, some "A"⟩, some (some "A")) ∧
      startSpinLegacy false ⟨[⟨1, "A", 1⟩], [], "X", false, some "A"⟩ 0
        = (⟨[⟨1, "A", 1⟩], [], "X", true, some "A"⟩, some (some "A")) ∧
      startSpin ⟨[⟨1, "A", 1⟩], [], "X", false, some "A"⟩ 0
        ≠ (⟨[⟨1, "A", 1⟩], [], "X", false, some "A"⟩, none) := by
  decide

/-- C7 (amended): `startSpin` invoked while spinning (`isSpinning` is true) is
rejected with no state change: the state is returned as it was and no winner is
computed, in both variants of the script. -/
theorem startSpin_rejected_while_spinning (s : State) (i : Nat)
    (h : s.isSpinning = true) :
    startSpin s i = (s, none) ∧ ∀ b, startSpinLegacy b s i = (s, none) := by
  constructor
  · simp [startSpin, h]
  · intro b
    simp [startSpinLegacy, h]

theorem startSpin_rejected_while_spinning_witness :
    startSpin ⟨[⟨1, "A", 2⟩, ⟨2, "B", 1⟩], [], "X", true, none⟩ 1
        = (⟨[⟨1, "A", 2⟩, ⟨2, "B", 1⟩], [], "X", true, none⟩, none) ∧
      ∀ b, startSpinLegacy b ⟨[⟨1, "A", 2⟩, ⟨2, "B", 1⟩], [], "X", true, none⟩ 1
        = (⟨[⟨1, "A", 2⟩, ⟨2, "B", 1⟩], [], "X", true, none⟩, none) :=
  startSpin_rejected_while_spinning ⟨[⟨1, "A", 2⟩, ⟨2, "B", 1⟩], [], "X", true, none⟩ 1 rfl

/-- C8: in an idle state whose total ticket count is 0, `startSpin` is rejected:
the state is returned unchanged (`isSpinning` false, `pendingWinner` null,
participants, winners and prize as before) and no winner is computed, in both
variants of the script. -/
theorem startSpin_rejected_without_tickets (s : State) (i : Nat)
    (hs : s.isSpinning = false) (hp : s.pendingWinner = none)
    (h0 : getTotalTickets s.participants = 0) :
    startSpin s i = (s, none) ∧ (∀ b, startSpinLegacy b s i = (s, none)) ∧
      (startSpin s i).1.isSpinning = false ∧ (startSpin s i).1.pendingWinner = none := by
  have h1 : startSpin s i = (s, none) := by simp [startSpin, hs, h0]
  refine ⟨h1, ?_, ?_, ?_⟩
  · intro b
    simp [startSpinLegacy, hs, h0]
  · rw [h1]
    exact hs
  · rw [h1]
    exact hp

theorem startSpin_rejected_without_tickets_witness :
    startSpin ⟨[], [], "X", false, none⟩ 0 = (⟨[], [], "X", false, none⟩, none) ∧
      (∀ b, startSpinLegacy b ⟨[], [], "X", false, none⟩ 0
        = (⟨[], [], "X", false, none⟩, none)) ∧
      (startSpin ⟨[], [], "X", false, none⟩ 0).1.isSpinning = false ∧
      (startSpin ⟨[], [], "X", false, none⟩ 0).1.pendingWinner = none :=
  startSpin_rejected_without_tickets ⟨[], [], "X", false, none⟩ 0 rfl rfl rfl

/-- C9: `redrawPrize` leaves participants, winners and prize as they were and
clears `pendingWinner`; hence a `startSpin`, `onSpinComplete`, `redrawPrize` cycle
from any state, with any winner index and any name handed to `onSpinComplete`,
ends with participants, winners and prize equal to their values before the draw,
in both variants of the script. -/
theorem redrawPrize_changes_no_data (s : State) (i : Nat) (w : Option String) :
    ((redrawPrize s).participants = s.participants ∧
        (redrawPrize s).winners = s.winners ∧
        (redrawPrize s).currentPrize = s.currentPrize ∧
        (redrawPrize s).pendingWinner = none) ∧
      ((redrawPrize (onSpinComplete (startSpin s i).1 w)).participants = s.participants ∧
        (redrawPrize (onSpinComplete (startSpin s i).1 w)).winners = s.winners ∧
        (redrawPrize (onSpinComplete (startSpin s i).1 w)).currentPrize = s.currentPrize ∧
        (redrawPrize (onSpinComplete (startSpin s i).1 w)).pendingWinner = none) ∧
      (∀ b,
        (redrawPrize (onSpinComplete (startSpinLegacy b s i).1 w)).participants
          = s.participants ∧
        (redrawPrize (onSpinComplete (startSpinLegacy b s i).1 w)).winners = s.winners ∧
        (redrawPrize (onSpinComplete (startSpinLegacy b s i).1 w)).currentPrize
          = s.currentPrize ∧
        (redrawPrize (onSpinComplete (startSpinLegacy b s i).1 w)).pendingWinner = none) := by
  refine ⟨⟨rfl, rfl, rfl, rfl⟩, ?_, ?_⟩
  · by_cases hs : s.isSpinning = true
    · simp [startSpin, hs, redrawPrize, onSpinComplete]
    · by_cases h0 : getTotalTickets s.participants = 0
      · simp [startSpin, hs, h0, redrawPrize, onSpinComplete]
      · simp [startSpin, hs, h0, redrawPrize, onSpinComplete]
  · intro b
    by_cases hs : s.isSpinning = true
    · simp [startSpinLegacy, hs, redrawPrize, onSpinComplete]
    · by_cases h0 : getTotalTickets s.participants = 0
      · cases b <;> simp [startSpinLegacy, hs, h0, redrawPrize, onSpinComplete]
      · cases b <;> simp [startSpinLegacy, hs, h0, redrawPrize, onSpinComplete]

/-- C10: the ticket deduction and the winner record happen exactly once per
confirmed draw. With no pending winner `confirmWinner` changes nothing, and calling
it twice in a row gives the same state as calling it once. With a pending winner
`w` the first call appends exactly the one record `{ prize: currentPrize, name: w }`
and clears the pending winner, and after the second call the ledger still holds
that one new record only; the first call takes at most one ticket, and when the
first participant named `w` holds a ticket it takes exactly one from that
participant, and the second call takes no further one. -/
theorem confirmWinner_once (s : State) :
    (s.pendingWinner = none → confirmWinner s = s) ∧
      confirmWinner (confirmWinner s) = confirmWinner s ∧
      (∀ w, s.pendingWinner = some w → w ≠ "" →
        (confirmWinner s).winners = s.winners ++ [{ prize := s.currentPrize, name := w }] ∧
        (confirmWinner (confirmWinner s)).winners
          = s.winners ++ [{ prize := s.currentPrize, name := w }] ∧
        (confirmWinner s).pendingWinner = none ∧
        (OneTicketDeducted s.participants (confirmWinner s).participants ∨
          (confirmWinner s).participants = s.participants) ∧
        (∀ l1 q l2, s.participants = l1 ++ q :: l2 → (∀ r ∈ l1, r.name ≠ w) →
          q.name = w → 0 < q.tickets →
          (confirmWinner s).participants
            = l1 ++ { q with tickets := q.tickets - 1 } :: l2 ∧
          (confirmWinner (confirmWinner s)).participants
            = l1 ++ { q with tickets := q.tickets - 1 } :: l2)) := by
  have hidem : confirmWinner (confirmWinner s) = confirmWinner s := by
    cases hp : s.pendingWinner with
    | none => rw [confirmWinner_of_none s hp, confirmWinner_of_none s hp]
    | some w =>
      by_cases hw : w = ""
      · subst hw
        rw [confirmWinner_of_empty s hp, confirmWinner_of_empty s hp]
      · apply confirmWinner_of_none
        rw [confirmWinner_of_truthy s w hp hw]
  refine ⟨confirmWinner_of_none s, hidem, ?_⟩
  intro w hp hw
  have hwin : (confirmWinner s).winners
      = s.winners ++ [{ prize := s.currentPrize, name := w }] := by
    rw [confirmWinner_of_truthy s w hp hw]
  refine ⟨hwin, by rw [hidem, hwin], by rw [confirmWinner_of_truthy s w hp hw],
    confirmWinner_deducts_at_most_one s w hp hw, ?_⟩
  intro l1 q l2 hsplit hfirst hq hqt
  have h1 := confirmWinner_deducts_from_first_holder s w hp hw l1 q l2 hsplit hfirst hq hqt
  exact ⟨h1, by rw [hidem, h1]⟩

theorem confirmWinner_once_witness :
    confirmWinner ⟨[⟨1, "A", 2⟩], [], "X", false, none⟩
        = ⟨[⟨1, "A", 2⟩], [], "X", false, none⟩ ∧
      confirmWinner (confirmWinner ⟨[⟨1, "A", 2⟩, ⟨2, "B", 1⟩], [], "X", false, some "A"⟩)
        = confirmWinner ⟨[⟨1, "A", 2⟩, ⟨2, "B", 1⟩], [], "X", false, some "A"⟩ ∧
      (confirmWinner ⟨[⟨1, "A", 2⟩, ⟨2, "B", 1⟩], [], "X", false, some "A"⟩).winners
        = [] ++ [{ prize := "X", name := "A" }] ∧
      (confirmWinner
          (confirmWinner ⟨[⟨1, "A", 2⟩, ⟨2, "B", 1⟩], [], "X", false, some "A"⟩)).winners
        = [] ++ [{ prize := "X", name := "A" }] ∧
      (confirmWinner ⟨[⟨1, "A", 2⟩, ⟨2, "B", 1⟩], [], "X", false, some "A"⟩).participants
        = [] ++ ⟨1, "A", 2 - 1⟩ :: [⟨2, "B", 1⟩] ∧
      (confirmWinner
          (confirmWinner ⟨[⟨1, "A", 2⟩, ⟨2, "B", 1⟩], [], "X", false, some "A"⟩)).participants
        = [] ++ ⟨1, "A", 2 - 1⟩ :: [⟨2, "B", 1⟩] :=
  have h0 := confirmWinner_once ⟨[⟨1, "A", 2⟩], [], "X", false, none⟩
  have h := confirmWinner_once ⟨[⟨1, "A", 2⟩, ⟨2, "B", 1⟩], [], "X", false, some "A"⟩
  have hw := h.2.2 "A" rfl (by decide)
  have hd := hw.2.2.2.2 [] ⟨1, "A", 2⟩ [⟨2, "B", 1⟩] rfl (by decide) rfl (by decide)
  ⟨h0.1 rfl, h.2.1, hw.1, hw.2.1, hd.1, hd.2⟩

/-- C11: with no spin in progress and `p` the participant found for its id (the
first one carrying it; the only one when ids are unique), `adjustTickets(p.id, delta)`
leaves the whole state unchanged when `p.tickets + delta < 0`, and otherwise sets
the tickets of `p` to `p.tickets + delta` and changes nothing else; the older
variant agrees. -/
theorem adjustTickets_rejects_negative_else_sets (s : State) (l1 : List Participant)
    (p : Participant) (l2 : List Participant) (delta : Int) (hs : s.isSpinning = false)
    (hsplit : s.participants = l1 ++ p :: l2) (hfirst : ∀ q ∈ l1, q.id ≠ p.id) :
    (p.tickets + delta < 0 →
        adjustTickets s p.id delta = s ∧ adjustTicketsLegacy s p.id delta = s) ∧
      (0 ≤ p.tickets + delta →
        adjustTickets s p.id delta
          = { s with participants := l1 ++ { p with tickets := p.tickets + delta } :: l2 } ∧
        adjustTicketsLegacy s p.id delta
          = { s with participants := l1 ++ { p with tickets := p.tickets + delta } :: l2 }) := by
  have h1 : ∀ q ∈ l1, (fun r : Participant => r.id == p.id) q = false := by
    intro q hq
    simpa using hfirst q hq
  have hp : (fun r : Participant => r.id == p.id) p = true := by simp
  have hfind : s.participants.find? (fun r => r.id == p.id) = some p := by
    rw [hsplit]
    exact find?_append_first _ l1 p l2 h1 hp
  have hleg : ∀ d, adjustTickets s p.id d = adjustTicketsLegacy s p.id d :=
    fun d => adjustTickets_eq_legacy s p.id d hs
  constructor
  · intro hneg
    have : adjustTicketsLegacy s p.id delta = s := by
      simp [adjustTicketsLegacy, hfind, hneg]
    exact ⟨by rw [hleg, this], this⟩
  · intro hnn
    have hnot : ¬ (p.tickets + delta < 0) := by omega
    have : adjustTicketsLegacy s p.id delta
        = { s with participants := l1 ++ { p with tickets := p.tickets + delta } :: l2 } := by
      simp only [adjustTicketsLegacy, hfind, hnot, if_false]
      rw [hsplit, modifyFirst_append_first _ _ l1 p l2 h1 hp]
    exact ⟨by rw [hleg, this], this⟩

theorem adjustTickets_rejects_negative_else_sets_witness :
    adjustTickets ⟨[⟨1, "A", 2⟩, ⟨2, "B", 0⟩], [], "X", false, none⟩ 2 (-1)
        = ⟨[⟨1, "A", 2⟩, ⟨2, "B", 0⟩], [], "X", false, none⟩ ∧
      adjustTickets ⟨[⟨1, "A", 2⟩, ⟨2, "B", 0⟩], [], "X", false, none⟩ 2 3
        = ⟨[⟨1, "A", 2⟩, ⟨2, "B", 3⟩], [], "X", false, none⟩ :=
  have h := adjustTickets_rejects_negative_else_sets
    ⟨[⟨1, "A", 2⟩, ⟨2, "B", 0⟩], [], "X", false, none⟩ [⟨1, "A", 2⟩] ⟨2, "B", 0⟩ []
  ⟨((h (-1) rfl rfl (by decide)).1 (by decide)).1,
    ((h 3 rfl rfl (by decide)).2 (by decide)).1⟩

/-- C12 (as stated, refuted): with a winner pending `isSpinning` is false, so
`adjustTickets` of `src/js/script.js` changes the ticket count; the older variant
`src/script.js` has no session guard and changes it while spinning as well. -/
theorem adjustTickets_awaiting_counterexample :
    (adjustTickets ⟨[⟨1, "A", 1⟩], [], "X", false, some "A"⟩ 1 1).participants
        = [⟨1, "A", 2⟩] ∧
      (adjustTicketsLegacy ⟨[⟨1, "A", 1⟩], [], "X", true, none⟩ 1 1).participants
        = [⟨1, "A", 2⟩] := by
  decide

/-- C12 (amended): in every spinning state (`isSpinning` true) `adjustTickets` of
`src/js/script.js` is rejected for every id and delta: the state, and with it every
ticket count, is unchanged. -/
theorem adjustTickets_rejected_while_spinning (s : State) (id delta : Int)
    (h : s.isSpinning = true) :
    adjustTickets s id delta = s ∧
      (adjustTickets s id delta).participants = s.participants := by
  rw [adjustTickets_of_spinning s id delta h]
  exact ⟨rfl, rfl⟩

theorem adjustTickets_rejected_while_spinning_witness :
    adjustTickets ⟨[⟨1, "A", 1⟩], [], "X", true, none⟩ 1 1
        = ⟨[⟨1, "A", 1⟩], [], "X", true, none⟩ ∧
      (adjustTickets ⟨[⟨1, "A", 1⟩], [], "X", true, none⟩ 1 1).participants
        = [⟨1, "A", 1⟩] :=
  adjustTickets_rejected_while_spinning ⟨[⟨1, "A", 1⟩], [], "X", true, none⟩ 1 1 rfl

/-- C13 (as stated, refuted): `addParticipant` stores its `tickets` argument as
given, so a negative argument puts a negative ticket count into a store whose
counts were all at least 0. -/
theorem addParticipant_negative_counterexample :
    TicketsNonneg [⟨1, "A", 1⟩] ∧
      ¬ TicketsNonneg
        (addParticipant ⟨[⟨1, "A", 1⟩], [], "X", false, none⟩ "Z" (some (-1))).participants := by
  decide

/-- C13 (amended): if every ticket count is at least 0, it still is after any single
operation: `addParticipant` with a `tickets` argument that is omitted or at least 0,
`adjustTickets` (both variants) with any delta, `confirmWinner`, `redrawPrize`,
`removeParticipant`, `removeWinner` and `clearWinners`. -/
theorem ticketsNonneg_preserved (s : State) (h : TicketsNonneg s.participants) :
    (∀ name (tickets : Option Int), 0 ≤ tickets.getD 1 →
        TicketsNonneg (addParticipant s name tickets).participants) ∧
      (∀ id delta, TicketsNonneg (adjustTickets s id delta).participants) ∧
      (∀ id delta, TicketsNonneg (adjustTicketsLegacy s id delta).participants) ∧
      TicketsNonneg (confirmWinner s).participants ∧
      TicketsNonneg (redrawPrize s).participants ∧
      (∀ id, TicketsNonneg (removeParticipant s id).participants) ∧
      (∀ index confirmed, TicketsNonneg (removeWinner s index confirmed).participants) ∧
      (∀ confirmed, TicketsNonneg (clearWinners s confirmed).participants) := by
  refine ⟨?_, ?_, fun id delta => adjustTicketsLegacy_nonneg s id delta h,
    confirmWinner_nonneg s h, h, ?_, ?_, ?_⟩
  · intro name tickets ht q hq
    rcases List.mem_append.mp hq with hq | hq
    · exact h q hq
    · rw [List.mem_singleton.mp hq]
      exact ht
  · intro id delta
    by_cases hs : s.isSpinning = true
    · rw [adjustTickets_of_spinning s id delta hs]
      exact h
    · rw [adjustTickets_eq_legacy s id delta (by simpa using hs)]
      exact adjustTicketsLegacy_nonneg s id delta h
  · intro id q hq
    exact h q (removeParticipant_subset s id q hq)
  · intro index confirmed
    unfold removeWinner
    split
    · exact h
    · split
      · exact h
      · exact h
  · intro confirmed
    unfold clearWinners
    split
    · exact h
    · split
      · exact h
      · exact h

theorem ticketsNonneg_preserved_witness :
    TicketsNonneg
        (addParticipant ⟨[⟨1, "A", 1⟩, ⟨2, "B", 0⟩], [], "X", false, some "A"⟩ "Z"
          (some 2)).participants ∧
      TicketsNonneg
        (adjustTickets ⟨[⟨1, "A", 1⟩, ⟨2, "B", 0⟩], [], "X", false, some "A"⟩ 2
          (-1)).participants ∧
      TicketsNonneg
        (confirmWinner ⟨[⟨1, "A", 1⟩, ⟨2, "B", 0⟩], [], "X", false, some "A"⟩).participants :=
  have h := ticketsNonneg_preserved ⟨[⟨1, "A", 1⟩, ⟨2, "B", 0⟩], [], "X", false, some "A"⟩
    (by decide)
  ⟨h.1 "Z" (some 2) (by decide), h.2.1 2 (-1), h.2.2.2.1⟩

/-- C14: `addParticipant(name, tickets)` appends exactly one participant at the end
of the list, with the given name, the given tickets (1 when omitted) and the id
`maxId + 1`, where `maxId` is the largest of 0 and all existing ids; this id is the
id of no existing participant, so distinct ids stay distinct, and the existing
participants and the rest of the state are unchanged. -/
theorem addParticipant_appends_fresh_id (s : State) (name : String)
    (tickets : Option Int) :
    (addParticipant s name tickets).participants
        = s.participants ++
          [{ id := maxId s.participants + 1, name := name, tickets := tickets.getD 1 }] ∧
      (addParticipant s name none).participants
        = s.participants ++ [{ id := maxId s.participants + 1, name := name, tickets := 1 }] ∧
      (0 ≤ maxId s.participants ∧ (∀ p ∈ s.participants, p.id ≤ maxId s.participants) ∧
        (maxId s.participants = 0 ∨ ∃ p ∈ s.participants, p.id = maxId s.participants)) ∧
      (∀ p ∈ s.participants, p.id ≠ maxId s.participants + 1) ∧
      (IdsDistinct s.participants → IdsDistinct (addParticipant s name tickets).participants) ∧
      (addParticipant s name tickets).winners = s.winners ∧
      (addParticipant s name tickets).currentPrize = s.currentPrize ∧
      (addParticipant s name tickets).isSpinning = s.isSpinning ∧
      (addParticipant s name tickets).pendingWinner = s.pendingWinner := by
  have hfresh : ∀ p ∈ s.participants, p.id ≠ maxId s.participants + 1 := by
    intro p hp heq
    have := le_maxId s.participants p hp
    omega
  refine ⟨rfl, rfl, ⟨maxId_nonneg _, le_maxId _, maxId_eq_zero_or_mem _⟩, hfresh, ?_,
    rfl, rfl, rfl, rfl⟩
  intro hd
  show (List.map (fun p => p.id) (s.participants ++ _)).Nodup
  rw [List.map_append, List.nodup_append]
  refine ⟨hd, List.nodup_singleton _, ?_⟩
  intro a ha hb
  obtain ⟨p, hp, hpa⟩ := List.mem_map.mp ha
  have hb2 : a = maxId s.participants + 1 := by simpa using hb
  exact hfresh p hp (hpa.trans hb2)

theorem addParticipant_appends_fresh_id_witness :
    (addParticipant ⟨[⟨3, "A", 1⟩, ⟨7, "B", 0⟩], [], "X", false, none⟩ "Z" (some 2)).participants
        = [⟨3, "A", 1⟩, ⟨7, "B", 0⟩, ⟨8, "Z", 2⟩] ∧
      IdsDistinct
        (addParticipant ⟨[⟨3, "A", 1⟩, ⟨7, "B", 0⟩], [], "X", false, none⟩ "Z"
          (some 2)).participants :=
  have h := addParticipant_appends_fresh_id ⟨[⟨3, "A", 1⟩, ⟨7, "B", 0⟩], [], "X", false, none⟩
    "Z" (some 2)
  ⟨h.1, h.2.2.2.2.1 (by decide)⟩

/-- C15: `removeParticipant(id)` leaves the state unchanged when no participant has
the id; otherwise it removes exactly the first participant with that id, keeps all
other participants with their fields and order, and changes nothing else. -/
theorem removeParticipant_by_id (s : State) (id : Int) :
    ((∀ p ∈ s.participants, p.id ≠ id) → removeParticipant s id = s) ∧
      (∀ l1 p l2, s.participants = l1 ++ p :: l2 → (∀ q ∈ l1, q.id ≠ id) → p.id = id →
        removeParticipant s id = { s with participants := l1 ++ l2 }) := by
  constructor
  · intro hno
    have : s.participants.findIdx? (fun p => p.id == id) = none :=
      findIdx?_none_of_all _ _ 0 (fun q hq => by simpa using hno q hq)
    simp only [removeParticipant, this]
  · intro l1 p l2 hsplit hfirst hp
    have : s.participants.findIdx? (fun p => p.id == id) = some l1.length := by
      rw [hsplit, findIdx?_append_first _ l1 p l2 0 (fun q hq => by simpa using hfirst q hq)
        (by simpa using hp)]
      simp
    simp only [removeParticipant, this]
    rw [hsplit, eraseIdx_append_length]

theorem removeParticipant_by_id_witness :
    removeParticipant ⟨[⟨1, "A", 1⟩, ⟨2, "B", 0⟩], [⟨"Y", "B"⟩], "X", false, none⟩ 5
        = ⟨[⟨1, "A", 1⟩, ⟨2, "B", 0⟩], [⟨"Y", "B"⟩], "X", false, none⟩ ∧
      removeParticipant ⟨[⟨1, "A", 1⟩, ⟨2, "B", 0⟩, ⟨3, "C", 2⟩], [⟨"Y", "B"⟩], "X", false, none⟩ 2
        = ⟨[⟨1, "A", 1⟩, ⟨3, "C", 2⟩], [⟨"Y", "B"⟩], "X", false, none⟩ :=
  ⟨(removeParticipant_by_id ⟨[⟨1, "A", 1⟩, ⟨2, "B", 0⟩], [⟨"Y", "B"⟩], "X", false, none⟩ 5).1
      (by decide),
    (removeParticipant_by_id
      ⟨[⟨1, "A", 1⟩, ⟨2, "B", 0⟩, ⟨3, "C", 2⟩], [⟨"Y", "B"⟩], "X", false, none⟩ 2).2
      [⟨1, "A", 1⟩] ⟨2, "B", 0⟩ [⟨3, "C", 2⟩] rfl (by decide) rfl⟩

/-- C16: `removeWinner(index)` leaves the state unchanged for `index < 0` and for
`index >= winners.length`; for an index in range and a confirmed prompt the ledger
loses exactly the record at that storage position, the other records keep their
order, and nothing else changes; the participants are unchanged in every case. -/
theorem removeWinner_by_position (s : State) (index : Int) (confirmed : Bool) :
    ((index < 0 ∨ (s.winners.length : Int) ≤ index) → removeWinner s index confirmed = s) ∧
      (0 ≤ index → index < (s.winners.length : Int) →
        ∃ l1 w l2, s.winners = l1 ++ w :: l2 ∧ (l1.length : Int) = index ∧
          removeWinner s index true = { s with winners := l1 ++ l2 }) ∧
      (removeWinner s index confirmed).participants = s.participants := by
  refine ⟨?_, ?_, ?_⟩
  · intro h
    have h2 : index < 0 ∨ index ≥ (s.winners.length : Int) := by omega
    simp only [removeWinner, h2, if_true]
  · intro h0 hlt
    obtain ⟨i, rfl⟩ := Int.eq_ofNat_of_zero_le h0
    have hi : i < s.winners.length := by omega
    obtain ⟨l1, l2, hsplit, hlen, herase⟩ := eraseIdx_split s.winners i hi
    refine ⟨l1, s.winners[i], l2, hsplit, by omega, ?_⟩
    rw [removeWinner_of_range s i hi, herase]
  · unfold removeWinner
    split
    · rfl
    · split
      · rfl
      · rfl

theorem removeWinner_by_position_witness :
    removeWinner ⟨[⟨1, "A", 1⟩], [⟨"P1", "A"⟩, ⟨"P2", "B"⟩], "X", false, none⟩ 2 true
        = ⟨[⟨1, "A", 1⟩], [⟨"P1", "A"⟩, ⟨"P2", "B"⟩], "X", false, none⟩ ∧
      (∃ l1 w l2, ([⟨"P1", "A"⟩, ⟨"P2", "B"⟩] : List WinnerRecord) = l1 ++ w :: l2 ∧
        (l1.length : Int) = 1 ∧
        removeWinner ⟨[⟨1, "A", 1⟩], [⟨"P1", "A"⟩, ⟨"P2", "B"⟩], "X", false, none⟩ 1 true
          = ⟨[⟨1, "A", 1⟩], l1 ++ l2, "X", false, none⟩) :=
  ⟨(removeWinner_by_position
      ⟨[⟨1, "A", 1⟩], [⟨"P1", "A"⟩, ⟨"P2", "B"⟩], "X", false, none⟩ 2 true).1 (by decide),
    (removeWinner_by_position
      ⟨[⟨1, "A", 1⟩], [⟨"P1", "A"⟩, ⟨"P2", "B"⟩], "X", false, none⟩ 1 true).2.1
      (by decide) (by decide)⟩

/-- C17: for a ledger of length `n` and a display row `k < n` of the
most-recent-first listing, `renderWinners` shows on row `k` the record
`reversed[k]` with the index `n - 1 - k`, which is the storage position of that
very record, and `removeWinner` called with it removes exactly that record. -/
theorem renderWinners_index_is_storage_position (s : State) (k : Nat)
    (hk : k < s.winners.length) :
    ∃ w, (renderWinners s)[k]? = some ((s.winners.length : Int) - 1 - (k : Int), w) ∧
      s.winners.reverse[k]? = some w ∧
      s.winners[s.winners.length - 1 - k]? = some w ∧
      ∃ l1 l2, s.winners = l1 ++ w :: l2 ∧ l1.length = s.winners.length - 1 - k ∧
        removeWinner s ((s.winners.length : Int) - 1 - (k : Int)) true
          = { s with winners := l1 ++ l2 } := by
  have hi : s.winners.length - 1 - k < s.winners.length := by omega
  have hrev : s.winners.reverse[k]? = some (s.winners[s.winners.length - 1 - k]) := by
    rw [List.getElem?_reverse hk, List.getElem?_eq_getElem hi]
  refine ⟨s.winners[s.winners.length - 1 - k], ?_, hrev, List.getElem?_eq_getElem hi, ?_⟩
  · unfold renderWinners
    rw [List.getElem?_map, List.getElem?_enum, hrev]
    rfl
  · obtain ⟨l1, l2, hsplit, hlen, herase⟩ :=
      eraseIdx_split s.winners (s.winners.length - 1 - k) hi
    refine ⟨l1, l2, hsplit, hlen, ?_⟩
    have hcast : (s.winners.length : Int) - 1 - (k : Int)
        = ((s.winners.length - 1 - k : Nat) : Int) := by omega
    rw [hcast, removeWinner_of_range s _ hi, herase]

theorem renderWinners_index_is_storage_position_witness :
    ∃ w, (renderWinners ⟨[], [⟨"P1", "A"⟩, ⟨"P2", "B"⟩, ⟨"P3", "C"⟩], "X", false, none⟩)[0]?
        = some ((([⟨"P1", "A"⟩, ⟨"P2", "B"⟩, ⟨"P3", "C"⟩] : List WinnerRecord).length : Int)
            - 1 - ((0 : Nat) : Int), w) ∧
      ([⟨"P1", "A"⟩, ⟨"P2", "B"⟩, ⟨"P3", "C"⟩] : List WinnerRecord).reverse[0]? = some w ∧
      ([⟨"P1", "A"⟩, ⟨"P2", "B"⟩, ⟨"P3", "C"⟩] : List WinnerRecord)[3 - 1 - 0]? = some w ∧
      ∃ l1 l2, ([⟨"P1", "A"⟩, ⟨"P2", "B"⟩, ⟨"P3", "C"⟩] : List WinnerRecord) = l1 ++ w :: l2 ∧
        l1.length = 3 - 1 - 0 ∧
        removeWinner ⟨[], [⟨"P1", "A"⟩, ⟨"P2", "B"⟩, ⟨"P3", "C"⟩], "X", false, none⟩
            ((([⟨"P1", "A"⟩, ⟨"P2", "B"⟩, ⟨"P3", "C"⟩] : List WinnerRecord).length : Int)
              - 1 - ((0 : Nat) : Int)) true
          = ⟨[], l1 ++ l2, "X", false, none⟩ :=
  renderWinners_index_is_storage_position
    ⟨[], [⟨"P1", "A"⟩, ⟨"P2", "B"⟩, ⟨"P3", "C"⟩], "X", false, none⟩ 0 (by decide)

/-- C18: when names are pairwise distinct and the pending winner is a participant
`p` with a non-empty name and exactly 1 ticket, after `confirmWinner` the list has
the same length and holds `p` at its place with the same id and name and 0 tickets;
the weighted pool no longer contains the name of `p`, so no further `startSpin`
(either variant) can draw it. -/
theorem confirmWinner_last_ticket_excludes (s : State) (p : Participant)
    (hd : NamesDistinct s.participants) (hp : p ∈ s.participants) (h1 : p.tickets = 1)
    (hw : s.pendingWinner = some p.name) (hne : p.name ≠ "") :
    (∃ l1 l2, s.participants = l1 ++ p :: l2 ∧
        (confirmWinner s).participants = l1 ++ { p with tickets := 0 } :: l2) ∧
      { p with tickets := 0 } ∈ (confirmWinner s).participants ∧
      (confirmWinner s).participants.length = s.participants.length ∧
      p.name ∉ buildWeightedPool (confirmWinner s).participants ∧
      (∀ i, (startSpin (confirmWinner s) i).2 ≠ some (some p.name)) ∧
      (∀ b i, (startSpinLegacy b (confirmWinner s) i).2 ≠ some (some p.name)) := by
  have hfind : s.participants.find? (fun q => q.name == p.name) = some p :=
    find?_of_distinct _ hd p hp
  obtain ⟨l1, l2, hsplit, hmod⟩ := modifyFirst_split (fun q => q.name == p.name)
    (fun q => { q with tickets := q.tickets - 1 }) s.participants p hfind
  have hpos : p.tickets > 0 := by omega
  have hafter : (confirmWinner s).participants = l1 ++ { p with tickets := 0 } :: l2 := by
    rw [confirmWinner_of_truthy s p.name hw hne]
    simp only [hfind, hpos, if_true]
    rw [hmod, h1]
    rfl
  have hnames : p.name ∉ (l1 ++ l2).map (fun q => q.name) := by
    have hd2 : (List.map (fun q => q.name) (l1 ++ p :: l2)).Nodup := by
      rw [← hsplit]
      exact hd
    rw [List.map_append, List.map_cons, List.nodup_middle] at hd2
    rw [List.map_append]
    exact (List.nodup_cons.mp hd2).1
  have hpool : p.name ∉ buildWeightedPool (confirmWinner s).participants := by
    intro hmem
    obtain ⟨q, hq, hqn, hqt⟩ := (mem_buildWeightedPool _ _).mp hmem
    rw [hafter] at hq
    rcases List.mem_append.mp hq with h | h
    · exact hnames (List.mem_map.mpr ⟨q, List.mem_append_left _ h, hqn⟩)
    · rcases List.mem_cons.mp h with rfl | h
      · exact lt_irrefl (0 : Int) hqt
      · exact hnames (List.mem_map.mpr ⟨q, List.mem_append_right _ h, hqn⟩)
  refine ⟨⟨l1, l2, hsplit, hafter⟩, ?_, ?_, hpool, ?_, ?_⟩
  · rw [hafter]
    exact List.mem_append_right _ (List.mem_cons_self _ _)
  · rw [hafter, hsplit]
    simp
  · intro i h
    exact hpool (startSpin_snd_mem_pool _ i _ h)
  · intro b i h
    exact hpool (startSpinLegacy_snd_mem_pool b _ i _ h)

theorem confirmWinner_last_ticket_excludes_witness :
    (∃ l1 l2, ([⟨1, "A", 1⟩, ⟨2, "B", 2⟩] : List Participant) = l1 ++ ⟨1, "A", 1⟩ :: l2 ∧
        (confirmWinner ⟨[⟨1, "A", 1⟩, ⟨2, "B", 2⟩], [], "X", false, some "A"⟩).participants
          = l1 ++ ⟨1, "A", 0⟩ :: l2) ∧
      ⟨1, "A", 0⟩ ∈
        (confirmWinner ⟨[⟨1, "A", 1⟩, ⟨2, "B", 2⟩], [], "X", false, some "A"⟩).participants ∧
      (confirmWinner ⟨[⟨1, "A", 1⟩, ⟨2, "B", 2⟩], [], "X", false, some "A"⟩).participants.length
        = 2 ∧
      "A" ∉ buildWeightedPool
        (confirmWinner ⟨[⟨1, "A", 1⟩, ⟨2, "B", 2⟩], [], "X", false, some "A"⟩).participants ∧
      (startSpin (confirmWinner ⟨[⟨1, "A", 1⟩, ⟨2, "B", 2⟩], [], "X", false, some "A"⟩) 0).2
        ≠ some (some "A") :=
  have h := confirmWinner_last_ticket_excludes
    ⟨[⟨1, "A", 1⟩, ⟨2, "B", 2⟩], [], "X", false, some "A"⟩ ⟨1, "A", 1⟩
    (by decide) (by decide) rfl rfl (by decide)
  ⟨h.1, h.2.1, h.2.2.1, h.2.2.2.1, h.2.2.2.2.1 0⟩

/-- C19: for the text split into lines, `parseCSV` (and `resetParticipants`) yields
exactly the list the specification describes: one participant for each line at a
position of at least 1 whose trimmed text is non-empty, in line order, named by the
trimmed text, with 1 ticket and the line position as id; the header at position 0
and blank lines give none. The ids are strictly increasing and the total ticket
count is the number of participants. -/
theorem parseCSV_matches_spec (trim : String → String) (lines : List String) :
    parseLines trim lines = parseLinesSpec trim lines ∧
      ((parseLines trim lines).map (fun p => p.id)).Pairwise (fun a b => a < b) ∧
      (∀ p ∈ parseLines trim lines, p.tickets = 1) ∧
      getTotalTickets (parseLines trim lines) = ((parseLines trim lines).length : Int) ∧
      (∀ s text, (parseCSV trim s text).participants
        = parseLines trim (text.splitOn "\n")) ∧
      (∀ s text, (resetParticipants trim s true (some text)).participants
        = parseLines trim (text.splitOn "\n")) :=
  ⟨parseLines_eq_spec trim lines, parseLinesFrom_ids_increasing trim 1 _,
    parseLinesFrom_tickets trim 1 _, total_of_all_one _ (parseLinesFrom_tickets trim 1 _),
    fun _ _ => rfl, fun _ _ => rfl⟩

/-- C20 (as stated, refuted): in `src/script.js` the seed list that `loadState`
falls back to is `DEFAULT_PARTICIPANTS`, whose first participant has 3 tickets. -/
theorem loadStateLegacy_seed_counterexample :
    ¬ (∀ p ∈ (loadStateLegacy ⟨[], [], "特獎", false, none⟩ Stored.absent).participants,
        p.tickets = 1) ∧
      ¬ (∀ p ∈ (loadStateLegacy ⟨[], [], "特獎", false, none⟩ Stored.malformed).participants,
        p.tickets = 1) := by
  decide

/-- C20 (amended): when nothing is saved or loading fails, `loadState` of
`src/script.js` sets the seed list `DEFAULT_PARTICIPANTS` (ticket counts from 1 to
3) and an empty winner ledger; `loadState` of `src/js/script.js` leaves the state as
it is and returns `false`, and the page-load handler then imports the participant
file, after which every participant has 1 ticket and the winner ledger is empty. -/
theorem loadState_fallback (trim : String → String) (s : State) (saved : Stored)
    (fetched : Option String) (h : saved = Stored.absent ∨ saved = Stored.malformed) :
    ((loadStateLegacy s saved).participants = DEFAULT_PARTICIPANTS ∧
        (loadStateLegacy s saved).winners = [] ∧
        (∀ p ∈ DEFAULT_PARTICIPANTS, 1 ≤ p.tickets ∧ p.tickets ≤ 3)) ∧
      (loadState s saved = (s, false) ∧
        (∀ p ∈ (onDOMContentLoaded trim saved fetched).participants, p.tickets = 1) ∧
        (onDOMContentLoaded trim saved fetched).winners = []) := by
  have hload : ∀ t, loadState t saved = (t, false) := by
    intro t
    rcases h with rfl | rfl <;> rfl
  have hleg : loadStateLegacy s saved
      = { s with participants := DEFAULT_PARTICIPANTS, winners := [], currentPrize := "特獎" } := by
    rcases h with rfl | rfl <;> rfl
  refine ⟨⟨by rw [hleg], by rw [hleg], by decide⟩, hload s, ?_, ?_⟩
  · unfold onDOMContentLoaded
    rw [hload]
    cases fetched with
    | none => intro p hp; simp [loadCSV, initialState] at hp
    | some text =>
      intro p hp
      exact parseLinesFrom_tickets trim 1 _ p hp
  · unfold onDOMContentLoaded
    rw [hload]
    cases fetched with
    | none => rfl
    | some text => rfl

theorem loadState_fallback_witness :
    ((loadStateLegacy initialState Stored.absent).participants = DEFAULT_PARTICIPANTS ∧
        (loadStateLegacy initialState Stored.absent).winners = [] ∧
        (∀ p ∈ DEFAULT_PARTICIPANTS, 1 ≤ p.tickets ∧ p.tickets ≤ 3)) ∧
      (loadState initialState Stored.absent = (initialState, false) ∧
        (∀ p ∈ (onDOMContentLoaded String.trim Stored.absent
            (some "name\nAmy\n\nBob")).participants, p.tickets = 1) ∧
        (onDOMContentLoaded String.trim Stored.absent (some "name\nAmy\n\nBob")).winners
          = []) :=
  loadState_fallback String.trim initialState Stored.absent (some "name\nAmy\n\nBob")
    (Or.inl rfl)

/-- C21: for a pool of `N >= 1` entries, a winner index `w < N`, any current
rotation and any number of extra turns, the target angle that `startSpin` computes
(both variants, exact rational arithmetic) is congruent modulo 360 to
`360 - (w * 360/N + 360/(2N))`; the animation ends at that angle, and with the wheel
turned by it the pointer at 0 degrees is over the centre of the slice of `w`,
strictly inside `[w * 360/N, (w + 1) * 360/N)`, the slice `drawWheel` labels with
`pool[w]`. -/
theorem targetAngle_points_at_winner (currentRotation : ℚ) (N w extraSpins : Nat)
    (hN : 1 ≤ N) (hw : w < N) :
    (∃ k : Int, targetAngle currentRotation N w extraSpins
        = 360 - ((w : ℚ) * 360 / (N : ℚ) + 360 / (2 * (N : ℚ))) + 360 * (k : ℚ)) ∧
      (∃ k : Int, targetAngleLegacy N w extraSpins
        = 360 - ((w : ℚ) * 360 / (N : ℚ) + 360 / (2 * (N : ℚ))) + 360 * (k : ℚ)) ∧
      animateWheelAngle currentRotation (targetAngle currentRotation N w extraSpins) 1
        = targetAngle currentRotation N w extraSpins ∧
      wheelAngleAtPointer (targetAngle currentRotation N w extraSpins)
        = (w : ℚ) * 360 / (N : ℚ) + 360 / (2 * (N : ℚ)) ∧
      wheelAngleAtPointer (targetAngleLegacy N w extraSpins)
        = (w : ℚ) * 360 / (N : ℚ) + 360 / (2 * (N : ℚ)) ∧
      sliceStart N w < wheelAngleAtPointer (targetAngle currentRotation N w extraSpins) ∧
      wheelAngleAtPointer (targetAngle currentRotation N w extraSpins) < sliceEnd N w := by
  obtain ⟨k, hk⟩ := targetAngle_congr currentRotation N w extraSpins
  obtain ⟨j, hj⟩ := targetAngleLegacy_congr N w extraSpins
  rw [stopAngle_eq] at hk hj
  obtain ⟨h0, h1, h2, h3⟩ := sliceCentre_bounds N w hN hw
  have hp := wheelAngleAtPointer_of_congr _ _ k h0 h1 hk
  have hq := wheelAngleAtPointer_of_congr _ _ j h0 h1 hj
  refine ⟨⟨k, hk⟩, ⟨j, hj⟩, ?_, hp, hq, ?_, ?_⟩
  · unfold animateWheelAngle
    ring
  · rw [hp]
    exact h2
  · rw [hp]
    exact h3

theorem targetAngle_points_at_winner_witness :
    (∃ k : Int, targetAngle 1234 4 1 2
        = 360 - (((1 : Nat) : ℚ) * 360 / ((4 : Nat) : ℚ) + 360 / (2 * ((4 : Nat) : ℚ)))
          + 360 * (k : ℚ)) ∧
      wheelAngleAtPointer (targetAngle 1234 4 1 2)
        = ((1 : Nat) : ℚ) * 360 / ((4 : Nat) : ℚ) + 360 / (2 * ((4 : Nat) : ℚ)) ∧
      sliceStart 4 1 < wheelAngleAtPointer (targetAngle 1234 4 1 2) ∧
      wheelAngleAtPointer (targetAngle 1234 4 1 2) < sliceEnd 4 1 :=
  have h := targetAngle_points_at_winner 1234 4 1 2 (by decide) (by decide)
  ⟨h.1, h.2.2.2.1, h.2.2.2.2.2.1, h.2.2.2.2.2.2⟩

end LuckyDraw
